import Mathlib

set_option maxRecDepth 100000

/-!
Verification development for the promptier repository (@promptier/core and
@promptier/lint): a shallow embedding of the render pipeline with provenance
tracking (SourceMap), the cache-aware section orderer, the formatters, the
lint rule engine, and the semantic-response parser, together with theorems
settling the specification claims.

JavaScript strings are modelled as lists of characters (`Str`); the inputs
under study are ASCII, where JS UTF-16 code units and `Char` agree.
JS numbers appearing as offsets/indices are `Nat`, section priorities are
`Int`, and the one fractional quantity (the token-ratio threshold) is `Rat`.
Fallible JS code (throw / rejected promise) is modelled with `Except`.
-/

/-- JS strings as lists of characters. -/
abbrev Str := List Char

/-- JS whitespace class (the characters relevant to this code base's ASCII
inputs, plus NBSP): mirrors the `\s` regex class and `String.prototype.trim`. -/
def isJsWs (c : Char) : Bool :=
  c = ' ' || c = '\t' || c = '\n' || c = '\r' ||
  c = Char.ofNat 11 || c = Char.ofNat 12 || c = Char.ofNat 160

/-- `String.prototype.trim`. -/
def jsTrim (s : Str) : Str :=
  ((s.dropWhile isJsWs).reverse.dropWhile isJsWs).reverse

/-- `String.prototype.toLowerCase` (ASCII). -/
def jsLower (s : Str) : Str := s.map Char.toLower

/-- Case-insensitive character comparison (ASCII). -/
def ciEq (a b : Char) : Bool := a.toLower = b.toLower

/-- Does `pat` occur in `s` starting exactly at index `k`? -/
def hasMatchAt (s pat : Str) (k : Nat) : Bool :=
  (s.drop k).take pat.length = pat

/-- Case-insensitive variant of `hasMatchAt`. -/
def hasMatchAtCI (s pat : Str) (k : Nat) : Bool :=
  ((s.drop k).take pat.length).map Char.toLower = pat.map Char.toLower

/-- Search loop for `indexOfFrom`: try positions `k, k+1, ...` while fuel lasts. -/
def indexOfLoop (s pat : Str) : Nat → Nat → Option Nat
  | _, 0 => none
  | k, fuel + 1 =>
    if hasMatchAt s pat k then some k else indexOfLoop s pat (k + 1) fuel

/-- `String.prototype.indexOf(pat, start)`: the least index `k ≥ min start s.length`
at which `pat` occurs (`none` for JS `-1`). For the empty pattern this returns
`min start s.length`, exactly as in JS. -/
def indexOfFrom (s pat : Str) (start : Nat) : Option Nat :=
  let st := min start s.length
  indexOfLoop s pat st (s.length + 1 - st)

/-- `String.prototype.indexOf(pat)`. -/
def indexOfStr (s pat : Str) : Option Nat := indexOfFrom s pat 0

/-- `String.prototype.includes`. -/
def strIncludes (s pat : Str) : Bool := (indexOfStr s pat).isSome

/-- `String.prototype.startsWith`. -/
def strStartsWith (s pat : Str) : Bool := s.take pat.length = pat

/-- `Array.prototype.join` for strings. -/
def joinWith (sep : Str) : List Str → Str
  | [] => []
  | [x] => x
  | x :: xs => x ++ sep ++ joinWith sep xs

/-- The nine section types of the data model (`SectionType`). -/
inductive SectionType where
  | identity | capabilities | constraints | domain | tools
  | context | examples | fmt | custom
deriving DecidableEq, Repr

/-- The string name of a section type as it appears in the TypeScript union. -/
def SectionType.typeName : SectionType → Str
  | .identity => "identity".toList
  | .capabilities => "capabilities".toList
  | .constraints => "constraints".toList
  | .domain => "domain".toList
  | .tools => "tools".toList
  | .context => "context".toList
  | .examples => "examples".toList
  | .fmt => "format".toList
  | .custom => "custom".toList

/-- Half-open output range of a provenance mapping plus its 1-indexed
line/column start position (`SourceMapping['output']`). -/
structure OutputRange where
  start : Nat
  stop : Nat
  line : Nat
  column : Nat
deriving DecidableEq, Repr

/-- Origin descriptor of a provenance mapping (`SourceMapping['source']`). -/
inductive Origin where
  | fragment (fragmentId : Str) (fragmentVersion : Str) (sectionType : SectionType)
      (sectionIndex : Nat) (file : Option Str) (fileLine : Option Nat)
  | dynamic (sectionType : SectionType) (sectionIndex : Nat) (dynamicKey : Option Str)
  | literal (sectionType : SectionType) (sectionIndex : Nat)
  | generated (sectionType : Option SectionType) (sectionIndex : Option Nat)
deriving DecidableEq, Repr

/-- The `fragmentId` property of an origin (`undefined` for non-fragment origins). -/
def Origin.fragmentId? : Origin → Option Str
  | .fragment fid _ _ _ _ _ => some fid
  | _ => none

/-- One provenance mapping (`SourceMapping`). -/
structure SourceMapping where
  output : OutputRange
  source : Origin
deriving DecidableEq, Repr

/-- Serialized form of a source map (`SourceMapData`). -/
structure SourceMapData where
  version : Nat
  prompt : Str
  mappings : List SourceMapping
deriving DecidableEq, Repr

/-- The `SourceMap` class: subject prompt name, append-only mapping list and
the internally tracked rendered text used for line/column conversions. -/
structure SourceMap where
  prompt : Str
  mappings : List SourceMapping := []
  renderedText : Str := []
deriving Repr

/-- `new SourceMap(promptName)`. -/
def SourceMap.new (promptName : Str) : SourceMap := { prompt := promptName }

/-- `SourceMap.setRenderedText`. -/
def SourceMap.setRenderedText (sm : SourceMap) (text : Str) : SourceMap :=
  { sm with renderedText := text }

/-- `SourceMap.addMapping`: mappings are append-only. -/
def SourceMap.addMapping (sm : SourceMap) (m : SourceMapping) : SourceMap :=
  { sm with mappings := sm.mappings ++ [m] }

/-- Loop of `getLineColumn`: walk the text for `offset` steps (or until the
text ends), bumping line/column counters exactly as the source's for loop. -/
def lineColAux : Str → Nat → Nat → Nat → Nat × Nat
  | _, 0, line, col => (line, col)
  | [], _ + 1, line, col => (line, col)
  | c :: rest, n + 1, line, col =>
    if c = '\n' then lineColAux rest n (line + 1) 1 else lineColAux rest n line (col + 1)

/-- `SourceMap.getLineColumn`: 1-indexed line/column of a character offset,
computed by a linear scan of the rendered text. -/
def getLineColumn (text : Str) (offset : Nat) : Nat × Nat :=
  lineColAux text offset 1 1

/-- Loop of `getCharOffset`: advance through the text while the current line
is below the requested line, counting characters. -/
def charOffsetAux : Str → Nat → Nat → Nat → Nat
  | [], _, _, acc => acc
  | c :: rest, curLine, line, acc =>
    if curLine < line then
      charOffsetAux rest (if c = '\n' then curLine + 1 else curLine) line (acc + 1)
    else acc

/-- `SourceMap.getCharOffset`: line/column to character offset; the JS result
`offset + column - 1` can be `-1` (for `column = 0`), hence `Int`. -/
def SourceMap.getCharOffset (sm : SourceMap) (line column : Nat) : Int :=
  (charOffsetAux sm.renderedText 1 line 0 : Int) + column - 1

/-- Does offset `o` fall in the half-open output range of mapping `m`? -/
def inRange (m : SourceMapping) (o : Nat) : Bool :=
  m.output.start ≤ o && o < m.output.stop

/-- `SourceMap.originAtOffset`: first mapping (in insertion order) whose
half-open range contains the offset, else `null`. -/
def SourceMap.originAtOffset (sm : SourceMap) (offset : Nat) : Option Origin :=
  (sm.mappings.find? (fun m => inRange m offset)).map (·.source)

/-- Signed-range membership used by `originAt` (the converted offset may be
negative). -/
def inRangeInt (m : SourceMapping) (o : Int) : Bool :=
  (m.output.start : Int) ≤ o && o < (m.output.stop : Int)

/-- `SourceMap.originAt`: convert line/column to an offset against the tracked
rendered text, then scan the mappings as `originAtOffset` does. -/
def SourceMap.originAt (sm : SourceMap) (line column : Nat) : Option Origin :=
  let charOffset := sm.getCharOffset line column
  (sm.mappings.find? (fun m => inRangeInt m charOffset)).map (·.source)

/-- `SourceMap.positionsFrom`: output ranges of all mappings citing the given
fragment id, in insertion order. -/
def SourceMap.positionsFrom (sm : SourceMap) (fragmentId : Str) : List OutputRange :=
  (sm.mappings.filter (fun m => m.source.fragmentId? = some fragmentId)).map (·.output)

/-- `SourceMap.toJSON`. -/
def SourceMap.toJSON (sm : SourceMap) : SourceMapData :=
  { version := 1, prompt := sm.prompt, mappings := sm.mappings }

/-- `SourceMap.fromJSON`: a fresh map for the serialized prompt name, replaying
`addMapping` over the serialized mappings. The rendered text is not part of
`SourceMapData` and is left empty. -/
def SourceMap.fromJSON (d : SourceMapData) : SourceMap :=
  d.mappings.foldl (fun sm m => sm.addMapping m) (SourceMap.new d.prompt)

/-- `SourceMap.addFragmentMapping`. -/
def SourceMap.addFragmentMapping (sm : SourceMap) (outputStart outputEnd : Nat)
    (fragmentId fragmentVersion : Str) (sectionType : SectionType) (sectionIndex : Nat)
    (sourceFile : Option Str) (sourceLine : Option Nat) : SourceMap :=
  let lc := getLineColumn sm.renderedText outputStart
  sm.addMapping
    { output := { start := outputStart, stop := outputEnd, line := lc.1, column := lc.2 },
      source := .fragment fragmentId fragmentVersion sectionType sectionIndex sourceFile sourceLine }

/-- `SourceMap.addDynamicMapping` (the prompt assembler passes no `dynamicKey`). -/
def SourceMap.addDynamicMapping (sm : SourceMap) (outputStart outputEnd : Nat)
    (sectionType : SectionType) (sectionIndex : Nat) (dynamicKey : Option Str) : SourceMap :=
  let lc := getLineColumn sm.renderedText outputStart
  sm.addMapping
    { output := { start := outputStart, stop := outputEnd, line := lc.1, column := lc.2 },
      source := .dynamic sectionType sectionIndex dynamicKey }

/-- `SourceMap.addLiteralMapping`. -/
def SourceMap.addLiteralMapping (sm : SourceMap) (outputStart outputEnd : Nat)
    (sectionType : SectionType) (sectionIndex : Nat) : SourceMap :=
  let lc := getLineColumn sm.renderedText outputStart
  sm.addMapping
    { output := { start := outputStart, stop := outputEnd, line := lc.1, column := lc.2 },
      source := .literal sectionType sectionIndex }

/-- Values reachable from a render context (the JSON-like subset exercised by
template interpolation; `Date` and other exotic values do not occur in the
claims under study). -/
inductive CtxVal where
  | vStr (s : Str)
  | vNum (n : Int)
  | vBool (b : Bool)
  | vNull
  | vObj (fields : List (Str × CtxVal))

/-- A render context: a key/value map. -/
abbrev RenderContext := List (Str × CtxVal)

/-- Association-list lookup (JS object property access). -/
def assocLookup (fields : List (Str × CtxVal)) (k : Str) : Option CtxVal :=
  (fields.find? (fun f => f.1 = k)).map (·.2)

/-- `Prompt.getNestedValue`: walk a dotted path; a missing property or a
primitive in the middle of the path yields `undefined` (`none`). -/
def getNestedValue : CtxVal → List Str → Option CtxVal
  | v, [] => some v
  | .vObj fields, p :: ps =>
    match assocLookup fields p with
    | some v => getNestedValue v ps
    | none => none
  | _, _ :: _ => none

/-- Split a string on a single character (`String.prototype.split('.')`). -/
def splitOnChar (c : Char) (s : Str) : List Str :=
  s.foldr (fun ch acc =>
    match acc with
    | [] => if ch = c then [[], []] else [[ch]]
    | piece :: rest => if ch = c then [] :: piece :: rest else (ch :: piece) :: rest) [[]]

/-- Decimal rendering of an integer (JS `String(value)` for integral numbers). -/
def intToStr (n : Int) : Str := (toString n).toList

/-- JSON string escaping used by `JSON.stringify`: the named escapes, then
`\u00XX` for the remaining control characters. -/
def jsonEscapeChar (c : Char) : Str :=
  if c = '"' then ['\\', '"']
  else if c = '\\' then ['\\', '\\']
  else if c = '\n' then ['\\', 'n']
  else if c = '\t' then ['\\', 't']
  else if c = '\r' then ['\\', 'r']
  else if c = Char.ofNat 8 then ['\\', 'b']
  else if c = Char.ofNat 12 then ['\\', 'f']
  else if c.toNat < 32 then
    ['\\', 'u', '0', '0', Nat.digitChar (c.toNat / 16), Nat.digitChar (c.toNat % 16)]
  else [c]

/-- Quote and escape a JSON string. -/
def jsonQuote (s : Str) : Str :=
  '"' :: (s.foldr (fun c acc => jsonEscapeChar c ++ acc) ['"'])

mutual

/-- `JSON.stringify` over context values. -/
def stringifyCtxVal : CtxVal → Str
  | .vStr s => jsonQuote s
  | .vNum n => intToStr n
  | .vBool b => if b then "true".toList else "false".toList
  | .vNull => "null".toList
  | .vObj fields => '\x7b' :: stringifyFields fields ++ ['\x7d']

/-- Comma-joined `"key":value` entries of a stringified object. -/
def stringifyFields : List (Str × CtxVal) → Str
  | [] => []
  | [(k, v)] => jsonQuote k ++ [':'] ++ stringifyCtxVal v
  | (k, v) :: rest => jsonQuote k ++ [':'] ++ stringifyCtxVal v ++ [','] ++ stringifyFields rest

end

/-- The replacement string for one interpolation match, given the looked-up
value: `undefined` keeps the match verbatim, `null` prints `null`, objects are
JSON-stringified, and primitives are `String(value)`. -/
def interpolateValue (matched : Str) (v : Option CtxVal) : Str :=
  match v with
  | none => matched
  | some .vNull => "null".toList
  | some (.vObj fields) => stringifyCtxVal (.vObj fields)
  | some (.vStr s) => s
  | some (.vNum n) => intToStr n
  | some (.vBool b) => if b then "true".toList else "false".toList

/-- Word-character class `\w` of JS regexes. -/
def isWordChar (c : Char) : Bool :=
  ('a' ≤ c && c ≤ 'z') || ('A' ≤ c && c ≤ 'Z') || ('0' ≤ c && c ≤ '9') || c = '_'

/-- Loop reading the remaining `(?:\.\w+)*\x7d\x7d` part of an interpolation
key (fuel-driven; each step consumes at least the dot). -/
def readInterpSegs : Nat → Str → Str → Option (Str × Str)
  | 0, _, _ => none
  | fuel + 1, acc, rem =>
    match rem with
    | '.' :: r =>
      let run := r.takeWhile isWordChar
      if run = [] then none
      else readInterpSegs fuel (acc ++ ['.'] ++ run) (r.drop run.length)
    | '\x7d' :: '\x7d' :: r2 => some (acc, r2)
    | _ => none

/-- Try to read an interpolation key `\$?\w+(?:\.\w+)*` followed by two closing
braces at the head of `s`; on success return the key and the rest of `s`. -/
def readInterpKey (s : Str) : Option (Str × Str) :=
  let (dollar, afterDollar) :=
    match s with
    | '$' :: rest => (['$'], rest)
    | _ => (([] : Str), s)
  let firstRun := afterDollar.takeWhile isWordChar
  if firstRun = [] then none
  else
    readInterpSegs (afterDollar.length) (dollar ++ firstRun) (afterDollar.drop firstRun.length)

/-- Scanner loop of `Prompt.interpolate`: replace every template placeholder
`\x7b\x7b path \x7d\x7d` by the looked-up value. -/
def interpolateAux (ctx : RenderContext) : Nat → Str → Str
  | 0, s => s
  | _ + 1, [] => []
  | fuel + 1, '\x7b' :: '\x7b' :: rest =>
    match readInterpKey rest with
    | some (key, remaining) =>
      let matched := '\x7b' :: '\x7b' :: key ++ ['\x7d', '\x7d']
      let v := getNestedValue (.vObj ctx) (splitOnChar '.' key)
      interpolateValue matched v ++ interpolateAux ctx fuel remaining
    | none => '\x7b' :: interpolateAux ctx fuel ('\x7b' :: rest)
  | fuel + 1, c :: rest => c :: interpolateAux ctx fuel rest

/-- `Prompt.interpolate`. -/
def interpolate (content : Str) (ctx : RenderContext) : Str :=
  interpolateAux ctx (content.length + 1) content

/-- A fragment definition (`FragmentDefinition`), restricted to the fields the
render pipeline reads. -/
structure FragmentDef where
  id : Str
  version : Str
  content : Str
  sourceFile : Option Str := none
  sourceLine : Option Nat := none

/-- Section content: literal string, fragment reference, or dynamic generator.
A generator models `throw` / rejected promise with `Except`. -/
inductive SectionContent where
  | str (s : Str)
  | frag (f : FragmentDef)
  | dyn (gen : RenderContext → Except Str Str)

/-- A section declaration (`SectionConfig`). -/
structure SectionConfig where
  type : SectionType
  name : Option Str := none
  priority : Int
  cacheable : Bool
  truncatable : Bool := false
  content : SectionContent

/-- `Section.isDynamic`. -/
def SectionConfig.isDynamic (s : SectionConfig) : Bool :=
  match s.content with
  | .dyn _ => true
  | _ => false

/-- `Section.getFragment`: dynamic sections have none; literal strings get an
anonymous fragment definition; fragment content is returned as-is. -/
def SectionConfig.getFragment (s : SectionConfig) : Option FragmentDef :=
  match s.content with
  | .dyn _ => none
  | .str str => some { id := "anonymous-".toList ++ s.type.typeName, version := "1.0.0".toList, content := str }
  | .frag f => some f

/-- A resolved section (`RenderedSection`), with the provisional origin fields
recorded by `resolveSections` (the provisional all-zero output range of the
source is omitted: `buildSourceMap` recomputes it from scratch). -/
structure RenderedSection where
  type : SectionType
  name : Option Str := none
  content : Str
  priority : Int
  cacheable : Bool
  srcIsDynamic : Bool := false
  srcSectionIndex : Nat := 0
  srcFragmentId : Option Str := none
  srcFragmentVersion : Option Str := none
  srcFile : Option Str := none
  srcFileLine : Option Nat := none

/-- `Prompt.resolveContent`: dynamic content runs the generator (which may
fail); strings and fragment bodies are interpolated (total). -/
def resolveContent (content : SectionContent) (ctx : RenderContext) : Except Str Str :=
  match content with
  | .dyn g => g ctx
  | .str s => .ok (interpolate s ctx)
  | .frag f => .ok (interpolate f.content ctx)

/-- Build the `RenderedSection` record for one resolved section, exactly as
`resolveSections` populates `sourceMapping.source`. -/
def mkRendered (s : SectionConfig) (i : Nat) (content : Str) : RenderedSection :=
  let frag := s.getFragment
  { type := s.type, name := s.name, content := content, priority := s.priority,
    cacheable := s.cacheable,
    srcIsDynamic := s.isDynamic,
    srcSectionIndex := i,
    srcFragmentId := frag.map (·.id),
    srcFragmentVersion := frag.map (·.version),
    srcFile := frag.bind (·.sourceFile),
    srcFileLine := frag.bind (·.sourceLine) }

/-- `Prompt.resolveSections`: resolve the sections strictly in declaration
order; the first failing generator aborts the whole resolution. -/
def resolveSectionsAux (ctx : RenderContext) : List SectionConfig → Nat → Except Str (List RenderedSection)
  | [], _ => .ok []
  | s :: rest, i =>
    match resolveContent s.content ctx with
    | .error e => .error e
    | .ok content =>
      match resolveSectionsAux ctx rest (i + 1) with
      | .error e => .error e
      | .ok tail => .ok (mkRendered s i content :: tail)

/-- Entry point of `resolveSections`. -/
def resolveSections (sections : List SectionConfig) (ctx : RenderContext) : Except Str (List RenderedSection) :=
  resolveSectionsAux ctx sections 0

/-- Stable insertion of a section into a priority-sorted list: an element is
placed before the first strictly-greater-or-equal... rather, before the first
element it compares `≤` to, which keeps the original order of equal
priorities (the stability guaranteed by `Array.prototype.sort`). -/
def insertByPriority (x : RenderedSection) : List RenderedSection → List RenderedSection
  | [] => [x]
  | y :: ys => if x.priority ≤ y.priority then x :: y :: ys else y :: insertByPriority x ys

/-- Stable sort ascending by priority, modelling the stable
`sections.sort((a, b) => a.priority - b.priority)`. -/
def sortByPriority : List RenderedSection → List RenderedSection
  | [] => []
  | x :: xs => insertByPriority x (sortByPriority xs)

/-- `Prompt.optimizeForCaching`: cacheable sections first, each group stable
sorted ascending by priority. -/
def optimizeForCaching (sections : List RenderedSection) : List RenderedSection :=
  sortByPriority (sections.filter (fun s => s.cacheable)) ++
  sortByPriority (sections.filter (fun s => !s.cacheable))

/-- The mapping kind chosen by `buildSourceMap` for one section: dynamic
sources get a dynamic mapping (no key), sources with a fragment id a fragment
mapping (version defaulted to 1.0.0), and the rest a literal mapping. -/
def mappingSourceFor (s : RenderedSection) (i : Nat) : Origin :=
  if s.srcIsDynamic then .dynamic s.type i none
  else
    match s.srcFragmentId with
    | some fid =>
      .fragment fid (s.srcFragmentVersion.getD "1.0.0".toList) s.type i s.srcFile s.srcFileLine
    | none => .literal s.type i

/-- Loop of `Prompt.buildSourceMap`: locate each section's resolved content by
a forward-only `indexOf` search from the end of the previous match; a section
whose content is not found is skipped; the mapping kind is chosen from the
provisional source (dynamic, then fragment id, then literal). -/
def buildMappings (text : Str) : List RenderedSection → Nat → Nat → List SourceMapping
  | [], _, _ => []
  | s :: rest, i, offset =>
    match indexOfFrom text s.content offset with
    | none => buildMappings text rest (i + 1) offset
    | some sectionStart =>
      { output := { start := sectionStart, stop := sectionStart + s.content.length,
                    line := (getLineColumn text sectionStart).1,
                    column := (getLineColumn text sectionStart).2 },
        source := mappingSourceFor s i } ::
        buildMappings text rest (i + 1) (sectionStart + s.content.length)

/-- `Prompt.buildSourceMap`. -/
def buildSourceMap (promptName text : Str) (sections : List RenderedSection) : SourceMap :=
  { prompt := promptName, renderedText := text, mappings := buildMappings text sections 0 0 }

/-- `String.prototype.toUpperCase` (ASCII). -/
def jsUpper (s : Str) : Str := s.map Char.toUpper

/-- Replace every hyphen or underscore by a space (the `/[-_]/g` replacement
used by the plain and markdown label builders). -/
def dashUnderscoreToSpace (s : Str) : Str :=
  s.map (fun c => if c = '-' || c = '_' then ' ' else c)

/-- `toTitleCase` (markdown formatter): dashes/underscores to spaces, then
uppercase every character at a word boundary (`\b\w`). -/
def toTitleCase (s : Str) : Str :=
  let spaced := dashUnderscoreToSpace s
  let rec go (prevIsWord : Bool) : Str → Str
    | [] => []
    | c :: rest =>
      let c' := if isWordChar c && !prevIsWord then c.toUpper else c
      c' :: go (isWordChar c) rest
  go false spaced

/-- `SECTION_HEADERS` of the markdown formatter. -/
def SECTION_HEADERS : SectionType → Str
  | .identity => "Identity".toList
  | .capabilities => "Capabilities".toList
  | .constraints => "Constraints".toList
  | .context => "Context".toList
  | .domain => "Domain Knowledge".toList
  | .tools => "Available Tools".toList
  | .fmt => "Output Format".toList
  | .examples => "Examples".toList
  | .custom => "Section".toList

/-- `SECTION_LABELS` of the plain formatter. -/
def SECTION_LABELS : SectionType → Str
  | .identity => "IDENTITY".toList
  | .capabilities => "CAPABILITIES".toList
  | .constraints => "CONSTRAINTS".toList
  | .context => "CONTEXT".toList
  | .domain => "DOMAIN".toList
  | .tools => "TOOLS".toList
  | .fmt => "OUTPUT FORMAT".toList
  | .examples => "EXAMPLES".toList
  | .custom => "SECTION".toList

/-- `SECTION_TAGS` of the XML formatter. -/
def SECTION_TAGS : SectionType → Str
  | .identity => "identity".toList
  | .capabilities => "capabilities".toList
  | .constraints => "constraints".toList
  | .context => "context".toList
  | .domain => "domain".toList
  | .tools => "tools".toList
  | .fmt => "format".toList
  | .examples => "examples".toList
  | .custom => "section".toList

/-- `MarkdownFormatter.getHeader`. -/
def markdownHeader (s : RenderedSection) : Str :=
  match s.type, s.name with
  | .custom, some n => toTitleCase n
  | t, _ => SECTION_HEADERS t

/-- `MarkdownFormatter.formatSection` (default header level 2). -/
def markdownFormatSection (headerLevel : Nat) (s : RenderedSection) : Str :=
  let header := markdownHeader s
  let content := jsTrim s.content
  let headerPre := List.replicate headerLevel '#'
  if content = [] then headerPre ++ [' '] ++ header
  else headerPre ++ [' '] ++ header ++ ['\n', '\n'] ++ content

/-- `MarkdownFormatter.format`. -/
def markdownFormat (headerLevel : Nat) (sections : List RenderedSection) : Str :=
  joinWith ['\n', '\n'] (sections.map (markdownFormatSection headerLevel))

/-- `PlainFormatter.getLabel`. -/
def plainLabel (s : RenderedSection) : Str :=
  match s.type, s.name with
  | .custom, some n => dashUnderscoreToSpace (jsUpper n)
  | t, _ => SECTION_LABELS t

/-- `PlainFormatter.formatSection` (labels on by default). -/
def plainFormatSection (includeLabels : Bool) (s : RenderedSection) : Str :=
  let content := jsTrim s.content
  if !includeLabels then content
  else
    let label := plainLabel s
    if content = [] then ['['] ++ label ++ [']']
    else ['['] ++ label ++ [']', '\n'] ++ content

/-- `PlainFormatter.format` (separator `---` by default). -/
def plainFormat (separator : Str) (includeLabels : Bool) (sections : List RenderedSection) : Str :=
  joinWith (['\n', '\n'] ++ separator ++ ['\n', '\n'])
    (sections.map (plainFormatSection includeLabels))

/-- `sanitizeTagName` of the XML formatter. -/
def sanitizeTagName (name : Str) : Str :=
  let lowered := jsLower name
  let replaced := lowered.map (fun c =>
    if ('a' ≤ c && c ≤ 'z') || ('0' ≤ c && c ≤ '9') || c = '_' || c = '.' || c = '-' then c else '-')
  let rec collapse : Str → Str
    | [] => []
    | '-' :: '-' :: rest => collapse ('-' :: rest)
    | c :: rest => c :: collapse rest
  let collapsed := collapse replaced
  let stripped :=
    let noLead := match collapsed with
      | '-' :: rest => rest
      | l => l
    match noLead.reverse with
    | '-' :: rest => rest.reverse
    | _ => noLead
  let sanitized :=
    match stripped with
    | c :: _ => if c.isAlpha || c = '_' then stripped else '_' :: stripped
    | [] => ['_']
  if sanitized = ['_'] && stripped = [] then "section".toList else sanitized

/-- `XmlFormatter.getTagName`. -/
def xmlTagName (s : RenderedSection) : Str :=
  match s.type, s.name with
  | .custom, some n => sanitizeTagName n
  | t, _ => SECTION_TAGS t

/-- `XmlFormatter.formatSection`: empty tags for empty content, inline tags
for short single-line content, indented tags otherwise. -/
def xmlFormatSection (s : RenderedSection) : Str :=
  let tagName := xmlTagName s
  let content := jsTrim s.content
  if content = [] then ['<'] ++ tagName ++ ['>', '<', '/'] ++ tagName ++ ['>']
  else if !content.contains '\n' && content.length < 80 then
    ['<'] ++ tagName ++ ['>'] ++ content ++ ['<', '/'] ++ tagName ++ ['>']
  else
    ['<'] ++ tagName ++ ['>', '\n'] ++ content ++ ['\n', '<', '/'] ++ tagName ++ ['>']

/-- `XmlFormatter.format`. -/
def xmlFormat (sections : List RenderedSection) : Str :=
  joinWith ['\n', '\n'] (sections.map xmlFormatSection)

/-- The three built-in formatter strategies. -/
inductive FormatKind where
  | xml | markdown | plain
deriving DecidableEq, Repr

/-- `createFormatter` applied to a strategy name, with each strategy's default
construction parameters. -/
def formatWith : FormatKind → List RenderedSection → Str
  | .xml => xmlFormat
  | .markdown => markdownFormat 2
  | .plain => plainFormat "---".toList true

/-- Model-capability facts consumed by the render pipeline and the linter. -/
structure ModelConfig where
  contextWindow : Nat
  preferredFormat : FormatKind
  supportsCaching : Bool
deriving DecidableEq, Repr

/-- `detectModelFamily`, applied to the family pattern table in order
(claude, gpt, gemini; case-insensitive substring tests). -/
def detectModelFamily (modelId : Str) : Str :=
  let low := jsLower modelId
  if strIncludes low "claude".toList || strIncludes low "anthropic".toList then "claude".toList
  else if strIncludes low "gpt".toList || strIncludes low "openai".toList ||
          strIncludes low "o1-".toList || strIncludes low "o3-".toList then "gpt".toList
  else if strIncludes low "gemini".toList || strIncludes low "google".toList then "gemini".toList
  else "unknown".toList

/-- `familyDefaults` restricted to the fields the core pipeline reads. -/
def familyDefaults (family : Str) : ModelConfig :=
  if family = "claude".toList then { contextWindow := 200000, preferredFormat := .xml, supportsCaching := true }
  else if family = "gpt".toList then { contextWindow := 128000, preferredFormat := .markdown, supportsCaching := false }
  else if family = "gemini".toList then { contextWindow := 1000000, preferredFormat := .markdown, supportsCaching := false }
  else { contextWindow := 8192, preferredFormat := .plain, supportsCaching := false }

/-- `getModelConfig` (fresh process: the custom-model registry is empty):
exact table match, then family inference. The exact table rows coincide with
their family defaults except Gemini 1.5 Pro's enlarged window. -/
def getModelConfig (modelId : Str) : ModelConfig :=
  if modelId = "gemini-1.5-pro".toList then
    { contextWindow := 2000000, preferredFormat := .markdown, supportsCaching := false }
  else if modelId = "claude-opus-4-20250514".toList || modelId = "claude-sonnet-4-20250514".toList ||
          modelId = "claude-haiku-3-20250514".toList then familyDefaults "claude".toList
  else if modelId = "gpt-4o".toList || modelId = "gpt-4o-mini".toList ||
          modelId = "gpt-4-turbo".toList then familyDefaults "gpt".toList
  else if modelId = "gemini-1.5-flash".toList then familyDefaults "gemini".toList
  else familyDefaults (detectModelFamily modelId)

/-- Prompt options (`PromptOptions`), restricted to the options the render
pipeline reads. `cacheOptimize` models `options.cacheOptimize !== false` and
`formatForModel` models `options.formatForModel === false`. -/
structure PromptOptions where
  cacheOptimize : Bool := true
  format : Option FormatKind := none
  formatForModel : Bool := true

/-- A composed prompt (`Prompt`). -/
structure Prompt where
  name : Str
  model : Str
  sections : List SectionConfig
  options : PromptOptions := {}

/-- Formatter selection in `Prompt.render`: disabled formatting joins raw
contents; an explicit format override wins; otherwise the formatter is
inferred from the model's preferred format. -/
def Prompt.formatText (p : Prompt) (sections : List RenderedSection) : Str :=
  if p.options.formatForModel = false then
    joinWith ['\n', '\n'] (sections.map (·.content))
  else
    match p.options.format with
    | some k => formatWith k sections
    | none => formatWith (getModelConfig p.model).preferredFormat sections

/-- The result of a render relevant to the claims: final text plus provenance
table. Token metadata is computed by the external tokenizer collaborator
(`countTokens`, total thanks to its estimator fallback) and is not part of
this embedding. -/
structure RenderResult where
  text : Str
  sourceMap : SourceMap

/-- `Prompt.render` over an already-enriched context: resolve the sections in
declaration order (the only fallible step), optionally reorder for caching,
format, and build the provenance table. -/
def Prompt.render (p : Prompt) (ctx : RenderContext) : Except Str RenderResult :=
  match resolveSections p.sections ctx with
  | .error e => .error e
  | .ok resolved =>
    let ordered := if p.options.cacheOptimize then optimizeForCaching resolved else resolved
    let text := p.formatText ordered
    .ok { text := text, sourceMap := buildSourceMap p.name text ordered }

/-- JSON insignificant whitespace. -/
def jsonWs (c : Char) : Bool := c = ' ' || c = '\t' || c = '\n' || c = '\r'

/-- JSON values as produced by `JSON.parse`. Number tokens keep their lexeme:
no consumer in the code under study reads a numeric value. -/
inductive Json where
  | jNull
  | jBool (b : Bool)
  | jNum (lexeme : Str)
  | jStr (s : Str)
  | jArr (items : List Json)
  | jObj (fields : List (Str × Json))
deriving Repr

/-- Is a character a decimal digit? -/
def isDigitChar (c : Char) : Bool := '0' ≤ c && c ≤ '9'

/-- Value of one hexadecimal digit (for `\u` escapes), over code points:
48-57 are `0`-`9`, 97-102 are `a`-`f`, 65-70 are `A`-`F`. -/
def hexVal (c : Char) : Option Nat :=
  let n := c.toNat
  if 48 ≤ n && n ≤ 57 then some (n - 48)
  else if 97 ≤ n && n ≤ 102 then some (n - 87)
  else if 65 ≤ n && n ≤ 70 then some (n - 55)
  else none

/-- Parse the body of a JSON string (after the opening quote), handling the
escape sequences of the JSON grammar and rejecting raw control characters. -/
def parseJsonStringBody : Nat → Str → Option (Str × Str)
  | 0, _ => none
  | _ + 1, [] => none
  | fuel + 1, c :: rest =>
    if c = '"' then some ([], rest)
    else if c = '\\' then
      match rest with
      | [] => none
      | e :: rest2 =>
        let decoded : Option (Str × Str) :=
          if e = '"' then some (['"'], rest2)
          else if e = '\\' then some (['\\'], rest2)
          else if e = '/' then some (['/'], rest2)
          else if e = 'b' then some ([Char.ofNat 8], rest2)
          else if e = 'f' then some ([Char.ofNat 12], rest2)
          else if e = 'n' then some (['\n'], rest2)
          else if e = 'r' then some (['\r'], rest2)
          else if e = 't' then some (['\t'], rest2)
          else if e = 'u' then
            match rest2 with
            | h1 :: h2 :: h3 :: h4 :: rest3 =>
              match hexVal h1, hexVal h2, hexVal h3, hexVal h4 with
              | some a, some b, some cc, some d =>
                some ([Char.ofNat (((a * 16 + b) * 16 + cc) * 16 + d)], rest3)
              | _, _, _, _ => none
            | _ => none
          else none
        match decoded with
        | none => none
        | some (chars, rest3) =>
          match parseJsonStringBody fuel rest3 with
          | none => none
          | some (tail, rem) => some (chars ++ tail, rem)
    else if c.toNat < 32 then none
    else
      match parseJsonStringBody fuel rest with
      | none => none
      | some (tail, rem) => some (c :: tail, rem)

/-- Parse a JSON number token, returning its lexeme. -/
def parseJsonNumber (s : Str) : Option (Str × Str) :=
  let (neg, s1) := match s with
    | '-' :: r => (['-'], r)
    | _ => (([] : Str), s)
  let intPart : Option (Str × Str) :=
    match s1 with
    | '0' :: r => some (['0'], r)
    | c :: _ =>
      if isDigitChar c && c ≠ '0' then
        let run := s1.takeWhile isDigitChar
        some (run, s1.drop run.length)
      else none
    | [] => none
  match intPart with
  | none => none
  | some (ip, s2) =>
    let fracPart : Option (Str × Str) :=
      match s2 with
      | '.' :: r =>
        let run := r.takeWhile isDigitChar
        if run = [] then none else some ('.' :: run, r.drop run.length)
      | _ => some ([], s2)
    match fracPart with
    | none => none
    | some (fp, s3) =>
      let expPart : Option (Str × Str) :=
        match s3 with
        | e :: r =>
          if e = 'e' || e = 'E' then
            let (sign, r2) := match r with
              | '+' :: r3 => (['+'], r3)
              | '-' :: r3 => (['-'], r3)
              | _ => (([] : Str), r)
            let run := r2.takeWhile isDigitChar
            if run = [] then none else some (e :: sign ++ run, r2.drop run.length)
          else some ([], s3)
        | [] => some ([], s3)
      match expPart with
      | none => none
      | some (ep, s4) => some (neg ++ ip ++ fp ++ ep, s4)

mutual

/-- Parse one JSON value (fuel-driven recursive descent over the JSON
grammar accepted by `JSON.parse`). -/
def parseJsonValue : Nat → Str → Option (Json × Str)
  | 0, _ => none
  | fuel + 1, s =>
    let s := s.dropWhile jsonWs
    match s with
    | [] => none
    | c :: rest =>
      if c = 'n' then
        if strStartsWith s "null".toList then some (.jNull, s.drop 4) else none
      else if c = 't' then
        if strStartsWith s "true".toList then some (.jBool true, s.drop 4) else none
      else if c = 'f' then
        if strStartsWith s "false".toList then some (.jBool false, s.drop 5) else none
      else if c = '"' then
        match parseJsonStringBody (rest.length + 1) rest with
        | some (str, rem) => some (.jStr str, rem)
        | none => none
      else if c = '[' then
        let r1 := rest.dropWhile jsonWs
        match r1 with
        | ']' :: r2 => some (.jArr [], r2)
        | _ => parseJsonItems fuel r1 []
      else if c = '\x7b' then
        let r1 := rest.dropWhile jsonWs
        match r1 with
        | '\x7d' :: r2 => some (.jObj [], r2)
        | _ => parseJsonFields fuel r1 []
      else if c = '-' || isDigitChar c then
        match parseJsonNumber s with
        | some (lex, rem) => some (.jNum lex, rem)
        | none => none
      else none

/-- Parse the comma-separated items of a non-empty JSON array, up to the
closing bracket. -/
def parseJsonItems : Nat → Str → List Json → Option (Json × Str)
  | 0, _, _ => none
  | fuel + 1, s, acc =>
    match parseJsonValue fuel s with
    | none => none
    | some (v, r) =>
      let r := r.dropWhile jsonWs
      match r with
      | ',' :: r2 => parseJsonItems fuel r2 (acc ++ [v])
      | ']' :: r2 => some (.jArr (acc ++ [v]), r2)
      | _ => none

/-- Parse the comma-separated `"key": value` fields of a non-empty JSON
object, up to the closing brace. -/
def parseJsonFields : Nat → Str → List (Str × Json) → Option (Json × Str)
  | 0, _, _ => none
  | fuel + 1, s, acc =>
    let s := s.dropWhile jsonWs
    match s with
    | '"' :: rest =>
      match parseJsonStringBody (rest.length + 1) rest with
      | none => none
      | some (key, r) =>
        let r := r.dropWhile jsonWs
        match r with
        | ':' :: r2 =>
          match parseJsonValue fuel r2 with
          | none => none
          | some (v, r3) =>
            let r3 := r3.dropWhile jsonWs
            match r3 with
            | ',' :: r4 => parseJsonFields fuel r4 (acc ++ [(key, v)])
            | '\x7d' :: r4 => some (.jObj (acc ++ [(key, v)]), r4)
            | _ => none
        | _ => none
    | _ => none

end

/-- `JSON.parse`: parse one value and require only whitespace to remain. -/
def jsonParse (s : Str) : Option Json :=
  match parseJsonValue (s.length + 2) s with
  | none => none
  | some (v, rem) => if rem.dropWhile jsonWs = [] then some v else none

/-- `String.prototype.lastIndexOf` for a single character. -/
def lastIndexOfChar (s : Str) (c : Char) : Option Nat :=
  let rec go : Str → Nat → Option Nat → Option Nat
    | [], _, best => best
    | x :: rest, i, best => go rest (i + 1) (if x = c then some i else best)
  go s 0 none

/-- Strategy 2 of `tryParse`: the capture of `/(three backticks)(?:json)?\s*([\s\S]*?)(three backticks)/`
applied to the trimmed raw text — content between the first code fence and the
next closing fence, with an optional `json` info string. -/
def extractFenceBody (trimmed : Str) : Option Str :=
  match indexOfStr trimmed "```".toList with
  | none => none
  | some i =>
    let after := trimmed.drop (i + 3)
    let afterInfo := if strStartsWith after "json".toList then after.drop 4 else after
    let body := afterInfo.dropWhile isJsWs
    match indexOfStr body "```".toList with
    | none => none
    | some j => some (body.take j)

/-- Strategy 3 of `tryParse`: the substring from the first `[` to the last
`]` of the trimmed raw text, provided the last `]` comes strictly after. -/
def extractBracketSlice (trimmed : Str) : Option Str :=
  match indexOfStr trimmed ['['], lastIndexOfChar trimmed ']' with
  | some firstB, some lastB =>
    if firstB < lastB then some ((trimmed.take (lastB + 1)).drop firstB) else none
  | _, _ => none

/-- `tryParse`: direct `JSON.parse`, then the markdown fence extraction, then
the first-`[`-to-last-`]` slice; `none` when every strategy fails. -/
def tryParse (raw : Str) : Option Json :=
  match jsonParse (jsTrim raw) with
  | some v => some v
  | none =>
    match
      (match extractFenceBody (jsTrim raw) with
       | some body => jsonParse (jsTrim body)
       | none => none) with
    | some v => some v
    | none =>
      match extractBracketSlice (jsTrim raw) with
      | some slice => jsonParse slice
      | none => none

/-- Lint severity (`LintSeverity`). -/
inductive Severity where
  | error | warning | info
deriving DecidableEq, Repr

/-- Optional character position attached to a finding. -/
structure FindingPos where
  start : Nat
  stop : Nat
  line : Nat
  column : Nat
deriving DecidableEq, Repr

/-- One lint finding (`LintWarning`). -/
structure Finding where
  id : Str
  category : Str
  severity : Severity
  message : Str
  suggestion : Option Str := none
  evidence : Option Str := none
  fragments : Option (List Str) := none
  position : Option FindingPos := none
deriving DecidableEq, Repr

deriving instance DecidableEq for Except

/-- The `semantic-parse-error` fallback finding synthesized when no parsing
strategy yields usable output. -/
def parseErrorFinding : Finding :=
  { id := "semantic-parse-error".toList, category := "best-practice".toList,
    severity := .info,
    message := "LLM linter returned unparseable response. Raw output available in debug mode.".toList }

/-- `CATEGORY_MAP` of the semantic parser. -/
def semanticCategoryMap (id : Str) : Option Str :=
  if id = "semantic-contradiction".toList then some "contradiction".toList
  else if id = "semantic-ambiguity".toList then some "ambiguity".toList
  else if id = "semantic-injection-risk".toList then some "security".toList
  else if id = "semantic-verbosity".toList then some "token-budget".toList
  else if id = "semantic-missing-practice".toList then some "best-practice".toList
  else if id = "semantic-scope-creep".toList then some "best-practice".toList
  else none

/-- JS property access on a parsed JSON value: objects look up the last
occurrence of the key (`JSON.parse` keeps the last duplicate); arrays have no
such string properties; primitives yield `undefined`. -/
def jsonGetField (item : Json) (key : Str) : Option Json :=
  match item with
  | .jObj fields => ((fields.reverse).find? (fun f => f.1 = key)).map (·.2)
  | _ => none

/-- Is a parsed item a JS object (`typeof item === 'object' && item !== null`)?
Arrays count as objects. -/
def jsonIsObjectLike (item : Json) : Bool :=
  match item with
  | .jObj _ => true
  | .jArr _ => true
  | _ => false

/-- String-typed property of an item, `none` when absent or not a string. -/
def jsonStringField (item : Json) (key : Str) : Option Str :=
  match jsonGetField item key with
  | some (.jStr s) => some s
  | _ => none

/-- Validation of one raw finding: entries without a string id or message are
dropped; invalid severities default to `info`; the category comes from the
fixed id table with a best-practice default. -/
def validateFinding (item : Json) : Option Finding :=
  if !jsonIsObjectLike item then none
  else
    match jsonStringField item "id".toList, jsonStringField item "message".toList with
    | some id, some message =>
      let severity : Severity :=
        match jsonGetField item "severity".toList with
        | some (.jStr s) =>
          if s = "error".toList then .error
          else if s = "warning".toList then .warning
          else if s = "info".toList then .info
          else .info
        | _ => .info
      let category := (semanticCategoryMap id).getD "best-practice".toList
      some { id := id, category := category, severity := severity, message := message,
             suggestion := jsonStringField item "suggestion".toList,
             evidence := jsonStringField item "evidence".toList }
    | _, _ => none

/-- `parseSemanticResponse`: resilient parsing of raw provider output into
findings; total, with the single `semantic-parse-error` fallback. -/
def parseSemanticResponse (raw : Str) : List Finding :=
  match tryParse raw with
  | none => [parseErrorFinding]
  | some parsed =>
    match parsed with
    | .jArr items => items.filterMap validateFinding
    | _ => [parseErrorFinding]

/-- Drop a literal from the head of a suffix, or fail. -/
def dropLit (s pat : Str) : Option Str :=
  if strStartsWith s pat then some (s.drop pat.length) else none

/-- Case-insensitive `dropLit`. -/
def dropLitCI (s pat : Str) : Option Str :=
  if (s.take pat.length).map Char.toLower = pat.map Char.toLower then some (s.drop pat.length)
  else none

/-- Match `/<!--\s*promptier-ignore-all\s*-->/i` at the head of a suffix. -/
def ignoreAllXmlAt (s : Str) : Bool :=
  (do
    let s1 ← dropLit s "<!--".toList
    let s2 := s1.dropWhile isJsWs
    let s3 ← dropLitCI s2 "promptier-ignore-all".toList
    let s4 := s3.dropWhile isJsWs
    let _ ← dropLit s4 "-->".toList
    pure ()).isSome

/-- `RegExp.prototype.test` for the two ignore-all directives: the XML comment
form (whitespace-tolerant) and the bracket form (exact, case-insensitive). -/
def hasIgnoreAllDirective (text : Str) : Bool :=
  text.tails.any ignoreAllXmlAt ||
  text.tails.any (fun s => (dropLitCI s "[promptier-ignore-all]".toList).isSome)

/-- Rule-id character class `[\w-]`. -/
def isRuleIdChar (c : Char) : Bool := isWordChar c || c = '-'

/-- Greedily read `(?:\s*,\s*[\w-]+)*` iterations after an initial token,
returning the tokens found and the rest of the input. Tokens contain no
whitespace and no commas, so each iteration is deterministic. -/
def readCommaTokens : Nat → Str → List Str → (List Str × Str)
  | 0, s, acc => (acc, s)
  | fuel + 1, s, acc =>
    let ws1 := s.takeWhile isJsWs
    let afterWs := s.drop ws1.length
    match afterWs with
    | ',' :: r =>
      let r2 := r.dropWhile isJsWs
      let tok := r2.takeWhile isRuleIdChar
      if tok = [] then (acc, s) else readCommaTokens fuel (r2.drop tok.length) (acc ++ [tok])
    | _ => (acc, s)

/-- Backtracking tail of the XML list directive: the final token may give back
trailing hyphens so that `\s*-->` can match (e.g. `a-->` captures `a`).
Try the longest token first, exactly as the greedy regex engine does. -/
def splitFinalToken (tok : Str) (rest : Str) : Option (Str × Str) :=
  let rec tryLen : Nat → Option (Str × Str)
    | 0 => none
    | n + 1 =>
      let kept := tok.take (n + 1)
      let back := tok.drop (n + 1)
      let tail := back ++ rest
      let afterWs := tail.dropWhile isJsWs
      match dropLit afterWs "-->".toList with
      | some r => some (kept, r)
      | none => tryLen n
  tryLen tok.length

/-- Match `/<!--\s*promptier-ignore\s+([\w-]+(?:\s*,\s*[\w-]+)*)\s*-->/i` at
the head of a suffix, returning the captured rule ids (the capture split on
`/\s*,\s*/` and trimmed, which for this token grammar is exactly the token
list) and the rest after the match. -/
def xmlDirectiveAt (s : Str) : Option (List Str × Str) := do
  let s1 ← dropLit s "<!--".toList
  let s2 := s1.dropWhile isJsWs
  let s3 ← dropLitCI s2 "promptier-ignore".toList
  let ws := s3.takeWhile isJsWs
  if ws = [] then none
  else
    let s4 := s3.drop ws.length
    let tok1 := s4.takeWhile isRuleIdChar
    if tok1 = [] then none
    else
      let (toks, s5) := readCommaTokens s4.length (s4.drop tok1.length) []
      match toks.reverse with
      | [] =>
        let (kept, rest) ← splitFinalToken tok1 s5
        pure ([kept], rest)
      | lastTok :: initRev =>
        let (kept, rest) ← splitFinalToken lastTok s5
        pure (tok1 :: initRev.reverse ++ [kept], rest)

/-- Match `/\[promptier-ignore:\s*([\w-]+(?:\s*,\s*[\w-]+)*)\]/i` at the head
of a suffix. The closing bracket follows the final token directly, so no
backtracking arises. -/
def bracketDirectiveAt (s : Str) : Option (List Str × Str) := do
  let s1 ← dropLitCI s "[promptier-ignore:".toList
  let s2 := s1.dropWhile isJsWs
  let tok1 := s2.takeWhile isRuleIdChar
  if tok1 = [] then none
  else
    let (toks, s3) := readCommaTokens s2.length (s2.drop tok1.length) []
    match s3 with
    | ']' :: r => pure (tok1 :: toks, r)
    | _ => none

/-- `matchAll` driver: scan left to right, collecting the rule ids of every
match and resuming after each match end. -/
def matchAllDirectives (attempt : Str → Option (List Str × Str)) : Nat → Str → List Str
  | 0, _ => []
  | _ + 1, [] => []
  | fuel + 1, s@(_ :: rest) =>
    match attempt s with
    | some (ids, remaining) =>
      if remaining.length < s.length then
        ids ++ matchAllDirectives attempt fuel remaining
      else
        ids ++ matchAllDirectives attempt fuel rest
    | none => matchAllDirectives attempt fuel rest

/-- JS `Set.prototype.add` on an insertion-ordered list. -/
def setAdd (s : List Str) (x : Str) : List Str :=
  if s.contains x then s else s ++ [x]

/-- `parseIgnoredRules`: the ignore-all directives short-circuit to the `*`
sentinel; otherwise both list-directive syntaxes contribute their rule ids. -/
def parseIgnoredRules (text : Str) : List Str :=
  if hasIgnoreAllDirective text then ["*".toList]
  else
    let xmlIds := matchAllDirectives xmlDirectiveAt (text.length + 1) text
    let bracketIds := matchAllDirectives bracketDirectiveAt (text.length + 1) text
    (xmlIds ++ bracketIds).foldl setAdd []

/-- Rule-specific options (`RuleOptions`): the only option a built-in rule
reads is the token-limit-warning threshold. -/
structure RuleOptions where
  threshold : Option Rat := none
deriving DecidableEq, Repr

/-- Context handed to lint rule checks (`LintContext`), restricted to the
fields the rules read. -/
structure LintContext where
  text : Str
  sections : List SectionConfig
  modelId : Str
  modelConfig : ModelConfig
  tokenCount : Nat
  options : Option RuleOptions := none

/-- One lint rule (`LintRule`): a possibly failing check models a `check`
that can throw or reject. -/
structure LintRuleM where
  id : Str
  category : Str
  defaultSeverity : Severity
  check : LintContext → Except Str (List Finding)

/-- Group reversed decimal digits in threes, comma-separated. -/
def groupRevDigits : Str → Str
  | a :: b :: c :: d :: rest => a :: b :: c :: ',' :: groupRevDigits (d :: rest)
  | s => s

/-- `Number.prototype.toLocaleString` for natural numbers: decimal digits in
comma-separated groups of three. -/
def toLocaleStr (n : Nat) : Str :=
  (groupRevDigits (toString n).toList.reverse).reverse

/-- `Math.round` on an exact rational (arguments here are nonnegative):
`floor(q + 1/2)`, computed over the numerator/denominator as
`(2q.num + q.den) fdiv (2 q.den)`. -/
def ratRound (q : Rat) : Int := Int.fdiv (2 * q.num + q.den) (2 * q.den)

/-- Exact multiplication of a rational by 100 (via `mkRat`, so that the
result is in normal form). -/
def ratMul100 (q : Rat) : Rat := mkRat (q.num * 100) q.den

/-- `getPosition` of the heuristic rules: 1-indexed line/column of an offset
via slicing and splitting on newlines. -/
def rulePosition (text : Str) (offset : Nat) : Nat × Nat :=
  let lines := splitOnChar '\n' (text.take offset)
  (lines.length, (lines.getLastD []).length + 1)

/-- Rule `token-limit-exceeded`. -/
def tokenLimitExceeded : LintRuleM :=
  { id := "token-limit-exceeded".toList, category := "token-budget".toList,
    defaultSeverity := .error,
    check := fun ctx => .ok (
      if ctx.tokenCount > ctx.modelConfig.contextWindow then
        [{ id := "token-limit-exceeded".toList, category := "token-budget".toList,
           severity := .error,
           message := "Prompt exceeds context window (".toList ++ toLocaleStr ctx.tokenCount ++
             " > ".toList ++ toLocaleStr ctx.modelConfig.contextWindow ++ " tokens)".toList }]
      else []) }

/-- Rule `token-limit-warning` (threshold option, default 0.8). -/
def tokenLimitWarning : LintRuleM :=
  { id := "token-limit-warning".toList, category := "token-budget".toList,
    defaultSeverity := .warning,
    check := fun ctx => .ok (
      let threshold : Rat := ((ctx.options.map (·.threshold)).join).getD (mkRat 4 5)
      let ratio : Rat := mkRat ctx.tokenCount ctx.modelConfig.contextWindow
      if threshold < ratio ∧ ratio ≤ 1 then
        [{ id := "token-limit-warning".toList, category := "token-budget".toList,
           severity := .warning,
           message := "Prompt approaching context window (".toList ++
             intToStr (ratRound (ratMul100 ratio)) ++ "% of limit, threshold: ".toList ++
             intToStr (ratRound (ratMul100 threshold)) ++ "%)".toList }]
      else []) }

/-- The `/<[a-z][a-z0-9-]*>/i` test of `hasXmlTags`: a `<`, a letter, a
maximal run of tag characters, then `>`. -/
def xmlTagAt (s : Str) : Bool :=
  match s with
  | '<' :: c :: rest =>
    if c.isAlpha then
      let run := rest.takeWhile (fun ch => ch.isAlpha || isDigitChar ch || ch = '-')
      match rest.drop run.length with
      | '>' :: _ => true
      | _ => false
    else false
  | _ => false

/-- `hasXmlTags`. -/
def hasXmlTags (text : Str) : Bool := text.tails.any xmlTagAt

/-- One attempt of the multiline `/^#{1,6}\s+/m` test at a line start. -/
def markdownHeaderAt (s : Str) : Bool :=
  let hashes := s.takeWhile (· = '#')
  1 ≤ hashes.length && hashes.length ≤ 6 &&
    match s.drop hashes.length with
    | w :: _ => isJsWs w
    | [] => false

/-- `hasMarkdownHeaders`: the anchored test may fire at the text start or
after any newline (and `\s+` may match the line's own terminating newline). -/
def hasMarkdownHeaders (text : Str) : Bool :=
  let rec go : Str → Bool → Bool
    | [], _ => false
    | s@(c :: rest), atStart => (atStart && markdownHeaderAt s) || go rest (c = '\n')
  go text true

/-- Rule `xml-tags-with-gpt`. -/
def xmlTagsWithGpt : LintRuleM :=
  { id := "xml-tags-with-gpt".toList, category := "model-mismatch".toList,
    defaultSeverity := .warning,
    check := fun ctx => .ok (
      if strStartsWith ctx.modelId "gpt".toList && hasXmlTags ctx.text then
        [{ id := "xml-tags-with-gpt".toList, category := "model-mismatch".toList,
           severity := .warning,
           message := "XML tags detected but targeting GPT model. Consider using markdown headers instead.".toList,
           suggestion := some "Switch to markdown formatting or change model to Claude.".toList }]
      else []) }

/-- Rule `markdown-with-claude`. -/
def markdownWithClaude : LintRuleM :=
  { id := "markdown-with-claude".toList, category := "model-mismatch".toList,
    defaultSeverity := .info,
    check := fun ctx => .ok (
      if strStartsWith ctx.modelId "claude".toList && hasMarkdownHeaders ctx.text &&
          !hasXmlTags ctx.text then
        [{ id := "markdown-with-claude".toList, category := "model-mismatch".toList,
           severity := .info,
           message := "Claude performs better with XML tags than markdown headers.".toList,
           suggestion := some "Consider using XML tags for structure.".toList }]
      else []) }

/-- `findLastIndex` helper of the heuristic rules. -/
def findLastIdx (sections : List SectionConfig) (p : SectionConfig → Bool) : Option Nat :=
  let rec go : List SectionConfig → Nat → Option Nat → Option Nat
    | [], _, best => best
    | s :: rest, i, best => go rest (i + 1) (if p s then some i else best)
  go sections 0 none

/-- Rule `dynamic-before-static`. -/
def dynamicBeforeStatic : LintRuleM :=
  { id := "dynamic-before-static".toList, category := "cache-inefficiency".toList,
    defaultSeverity := .warning,
    check := fun ctx => .ok (
      let firstDynamicIdx := ctx.sections.findIdx? (fun s => !s.cacheable)
      let lastCacheableIdx := findLastIdx ctx.sections (fun s => s.cacheable)
      match firstDynamicIdx, lastCacheableIdx with
      | some fd, some lc =>
        if fd < lc then
          [{ id := "dynamic-before-static".toList, category := "cache-inefficiency".toList,
             severity := .warning,
             message := "Dynamic content before static content reduces cache efficiency.".toList,
             suggestion := some "Reorder sections to put static content first, or enable cacheOptimize option.".toList }]
        else []
      | _, _ => []) }

/-- Rule `missing-identity`. -/
def missingIdentity : LintRuleM :=
  { id := "missing-identity".toList, category := "best-practice".toList,
    defaultSeverity := .warning,
    check := fun ctx => .ok (
      if ctx.sections.any (fun s => s.type = .identity) then []
      else
        [{ id := "missing-identity".toList, category := "best-practice".toList,
           severity := .warning,
           message := "No identity section. Agent may lack consistent persona.".toList,
           suggestion := some "Add an identity section to define who the agent is.".toList }]) }

/-- Rule `format-not-last`. -/
def formatNotLast : LintRuleM :=
  { id := "format-not-last".toList, category := "ordering".toList,
    defaultSeverity := .info,
    check := fun ctx => .ok (
      match ctx.sections.findIdx? (fun s => s.type = .fmt) with
      | some i =>
        if i ≠ ctx.sections.length - 1 then
          [{ id := "format-not-last".toList, category := "ordering".toList,
             severity := .info,
             message := "Output format instructions work best at the end.".toList,
             suggestion := some "Move the format section to be the last section.".toList }]
        else []
      | none => []) }

/-- Sentence punctuation class `[.!?]`. -/
def isSentenceDelim (c : Char) : Bool := c = '.' || c = '!' || c = '?'

/-- Loop of `splitSentences` (fuel-driven: each delimiter run is skipped in
one step). -/
def splitSentencesAux : Nat → Str → Str → List Str
  | 0, _, current => [current.reverse]
  | _ + 1, [], current => [current.reverse]
  | fuel + 1, c :: rest, current =>
    if isSentenceDelim c then
      current.reverse :: splitSentencesAux fuel (rest.dropWhile isSentenceDelim) []
    else splitSentencesAux fuel rest (c :: current)

/-- `String.prototype.split(/[.!?]+/)`: pieces between maximal runs of
sentence punctuation (leading/trailing empty pieces included). -/
def splitSentences (s : Str) : List Str :=
  splitSentencesAux (s.length + 1) s []

/-- `findDuplicateSentences`: trimmed, lowercased sentences longer than 20
characters that occur at least twice, listed when their count reaches two. -/
def findDuplicateSentences (text : Str) : List Str :=
  let sentences := ((splitSentences text).map (fun s => jsLower (jsTrim s))).filter
    (fun s => s.length > 20)
  let rec go : List Str → List (Str × Nat) → List Str
    | [], _ => []
    | s :: rest, seen =>
      let count := ((seen.find? (·.1 = s)).map (·.2)).getD 0 + 1
      let seen' := if (seen.find? (·.1 = s)).isSome
        then seen.map (fun e => if e.1 = s then (s, count) else e)
        else seen ++ [(s, count)]
      if count = 2 then s :: go rest seen' else go rest seen'
  go sentences []

/-- Rule `duplicate-instructions`: one finding per duplicate sentence, with
the position of its second occurrence when found. -/
def duplicateInstructions : LintRuleM :=
  { id := "duplicate-instructions".toList, category := "duplication".toList,
    defaultSeverity := .warning,
    check := fun ctx => .ok (
      (findDuplicateSentences ctx.text).map (fun dup =>
        let low := jsLower ctx.text
        let firstIdx := indexOfStr low dup
        let secondIdx := indexOfFrom low dup (((firstIdx.map (· + 1))).getD 0)
        let message := "Duplicate instruction detected: \"".toList ++ dup.take 50 ++
          (if dup.length > 50 then "...".toList else []) ++ "\"".toList
        { id := "duplicate-instructions".toList, category := "duplication".toList,
          severity := .warning, message := message,
          suggestion := some "Remove or consolidate duplicate instructions.".toList,
          position := secondIdx.map (fun si =>
            let pos := rulePosition ctx.text si
            { start := si, stop := si + dup.length, line := pos.1, column := pos.2 }) })) }

/-- Raw string content of a section declaration as read by the heuristic
rules: strings verbatim, fragment bodies, empty for generators. -/
def sectionRawContent (s : SectionConfig) : Str :=
  match s.content with
  | .str str => str
  | .frag f => f.content
  | .dyn _ => []

/-- Leftmost match of `/\x7b\x7buser\.[^\x7d]*\x7d\x7d/i`: returns match index and
length. -/
def findUserBraceMarker : Str → Nat → Option (Nat × Nat)
  | [], _ => none
  | s@(_ :: rest), i =>
    if hasMatchAtCI s "\x7b\x7buser.".toList 0 then
      let body := (s.drop 7).takeWhile (· ≠ '\x7d')
      match s.drop (7 + body.length) with
      | '\x7d' :: '\x7d' :: _ => some (i, 7 + body.length + 2)
      | _ => findUserBraceMarker rest (i + 1)
    else findUserBraceMarker rest (i + 1)

/-- Leftmost match of `/\$user\.\w+/i`. -/
def findDollarUserMarker : Str → Nat → Option (Nat × Nat)
  | [], _ => none
  | s@(_ :: rest), i =>
    if hasMatchAtCI s "$user.".toList 0 then
      let run := (s.drop 6).takeWhile isWordChar
      if run = [] then findDollarUserMarker rest (i + 1)
      else some (i, 6 + run.length)
    else findDollarUserMarker rest (i + 1)

/-- Leftmost case-insensitive occurrence of a literal. -/
def findCILiteral (pat : Str) : Str → Nat → Option (Nat × Nat)
  | [], _ => none
  | s@(_ :: rest), i =>
    if hasMatchAtCI s pat 0 then some (i, pat.length)
    else findCILiteral pat rest (i + 1)

/-- `findUserInputMarker`: the six marker patterns tried in order; the first
pattern that matches anywhere wins, with its leftmost match. -/
def findUserInputMarker (text : Str) : Option (Str × Nat) :=
  let attempt := fun (r : Option (Nat × Nat)) =>
    r.map (fun p => ((text.drop p.1).take p.2, p.1))
  match attempt (findUserBraceMarker text 0) with
  | some m => some m
  | none =>
    match attempt (findDollarUserMarker text 0) with
    | some m => some m
    | none =>
      match attempt (findCILiteral "user_input".toList text 0) with
      | some m => some m
      | none =>
        match attempt (findCILiteral "user_message".toList text 0) with
        | some m => some m
        | none =>
          match attempt (findCILiteral "<user_input>".toList text 0) with
          | some m => some m
          | none => attempt (findCILiteral "[USER INPUT]".toList text 0)

/-- Rule `user-input-in-system`: non-context sections containing a user-input
marker produce an error finding, positioned when the content is locatable in
the rendered text. -/
def userInputInSystem : LintRuleM :=
  { id := "user-input-in-system".toList, category := "security".toList,
    defaultSeverity := .error,
    check := fun ctx => .ok (
      (ctx.sections.filter (fun s => s.type ≠ .context)).filterMap (fun sec =>
        let content := sectionRawContent sec
        match findUserInputMarker content with
        | none => none
        | some (matched, markerIdx) =>
          let position :=
            match indexOfStr ctx.text content with
            | none => none
            | some contentStart =>
              let absoluteOffset := contentStart + markerIdx
              let pos := rulePosition ctx.text absoluteOffset
              some { start := absoluteOffset, stop := absoluteOffset + matched.length,
                     line := pos.1, column := pos.2 : FindingPos }
          some { id := "user-input-in-system".toList, category := "security".toList,
                 severity := .error,
                 message := "Potential user input detected in ".toList ++ sec.type.typeName ++
                   " section: \"".toList ++ matched ++ "\". Injection risk.".toList,
                 suggestion := some "Move user-provided content to a context section with proper sanitization.".toList,
                 position := position })) }

/-- Rule `empty-sections`. -/
def emptySections : LintRuleM :=
  { id := "empty-sections".toList, category := "best-practice".toList,
    defaultSeverity := .warning,
    check := fun ctx => .ok (
      ctx.sections.filterMap (fun sec =>
        let content := sectionRawContent sec
        if !sec.isDynamic && jsTrim content = [] then
          some { id := "empty-sections".toList, category := "best-practice".toList,
                 severity := .warning,
                 message := "Empty ".toList ++ sec.type.typeName ++ " section.".toList,
                 suggestion := some "Remove empty sections or add content.".toList }
        else none)) }

/-- One match attempt of `/always\s+(\w+(?:\s+\w+)?)/` (or the `never`
variant) at the head of a suffix: keyword, mandatory whitespace, a word, and
greedily a second whitespace-separated word. Returns the capture and the rest
after the match. -/
def actionCaptureAt (kw : Str) (s : Str) : Option (Str × Str) := do
  let s1 ← dropLit s kw
  let ws1 := s1.takeWhile isJsWs
  if ws1 = [] then none
  else
    let s2 := s1.drop ws1.length
    let w1 := s2.takeWhile isWordChar
    if w1 = [] then none
    else
      let s3 := s2.drop w1.length
      let ws2 := s3.takeWhile isJsWs
      let s4 := s3.drop ws2.length
      let w2 := s4.takeWhile isWordChar
      if ws2 ≠ [] && w2 ≠ [] then pure (w1 ++ ws2 ++ w2, s4.drop w2.length)
      else pure (w1, s3)

/-- `matchAll` driver for `actionCaptureAt`: captures of all non-overlapping
matches, scanning left to right. -/
def allActionCaptures (kw : Str) : Nat → Str → List Str
  | 0, _ => []
  | _ + 1, [] => []
  | fuel + 1, s@(_ :: rest) =>
    match actionCaptureAt kw s with
    | some (cap, remaining) =>
      if remaining.length < s.length then cap :: allActionCaptures kw fuel remaining
      else cap :: allActionCaptures kw fuel rest
    | none => allActionCaptures kw fuel rest

/-- Rule `conflicting-patterns`: `always X` versus `never X` pairs, plus the
concise-versus-detailed heuristic. -/
def conflictingPatterns : LintRuleM :=
  { id := "conflicting-patterns".toList, category := "contradiction".toList,
    defaultSeverity := .warning,
    check := fun ctx => .ok (
      let text := jsLower ctx.text
      let alwaysActions := (allActionCaptures "always".toList (text.length + 1) text).foldl setAdd []
      let neverActions := (allActionCaptures "never".toList (text.length + 1) text).foldl setAdd []
      let pairFindings := (alwaysActions.filter (fun a => neverActions.contains a)).map
        (fun action =>
          { id := "conflicting-patterns".toList, category := "contradiction".toList,
            severity := .warning,
            message := "Conflicting instructions: both \"always ".toList ++ action ++
              "\" and \"never ".toList ++ action ++ "\" found.".toList,
            suggestion := some "Clarify the intended behavior.".toList : Finding })
      let conciseFindings :=
        if strIncludes text "concise".toList &&
            (strIncludes text "detailed".toList || strIncludes text "comprehensive".toList) then
          [{ id := "conflicting-patterns".toList, category := "contradiction".toList,
             severity := .info,
             message := "Potentially conflicting: instructions for both concise and detailed responses.".toList,
             suggestion := some "Clarify when to be concise vs detailed.".toList : Finding }]
        else []
      pairFindings ++ conciseFindings) }

/-- The eleven built-in heuristic rules, in registration order. -/
def heuristicRules : List LintRuleM :=
  [tokenLimitExceeded, tokenLimitWarning, xmlTagsWithGpt, markdownWithClaude,
   dynamicBeforeStatic, missingIdentity, formatNotLast, duplicateInstructions,
   userInputInSystem, emptySections, conflictingPatterns]

/-- Configured severity of a rule (`RuleSeverity`): a severity or `off`. -/
inductive RuleSeverityC where
  | sev (s : Severity)
  | off
deriving DecidableEq, Repr

/-- Parsed rule configuration (`RuleConfig` through `parseRuleConfig`):
severity plus optional rule-specific options. -/
structure RuleConfigC where
  severity : RuleSeverityC
  options : Option RuleOptions := none
deriving DecidableEq, Repr

/-- Linter configuration (`LinterConfig`). The `llm` configuration is ignored
by the constructor of the shipped `Linter` ("LLM config reserved for future
semantic linting"), so it is omitted here. -/
structure LinterConfig where
  rules : List (Str × RuleConfigC) := []
  custom : List LintRuleM := []

/-- `Map.prototype.set` on an insertion-ordered association list: replace in
place or append. -/
def mapSet (m : List (Str × α)) (k : Str) (v : α) : List (Str × α) :=
  if m.any (fun e => e.1 = k) then m.map (fun e => if e.1 = k then (k, v) else e)
  else m ++ [(k, v)]

/-- `Map.prototype.get`. -/
def mapGet (m : List (Str × α)) (k : Str) : Option α :=
  (m.find? (fun e => e.1 = k)).map (·.2)

/-- The `Linter` class state: the rule registry and the per-rule
configuration, both insertion-ordered maps. -/
structure Linter where
  rules : List (Str × LintRuleM)
  ruleConfig : List (Str × RuleConfigC)

/-- The `Linter` constructor: register every heuristic rule, then the custom
rules (a custom id may shadow a built-in in place), configuring each from
`config.rules` with the rule's default severity as fallback; finally apply
every entry of `config.rules` to the configuration map. -/
def Linter.new (config : LinterConfig) : Linter :=
  let step := fun (st : List (Str × LintRuleM) × List (Str × RuleConfigC)) (r : LintRuleM) =>
    (mapSet st.1 r.id r,
     mapSet st.2 r.id ((mapGet config.rules r.id).getD { severity := .sev r.defaultSeverity }))
  let afterBuiltins := heuristicRules.foldl step ([], [])
  let afterCustom := config.custom.foldl step afterBuiltins
  let finalConfig := config.rules.foldl (fun m e => mapSet m e.1 e.2) afterCustom.2
  { rules := afterCustom.1, ruleConfig := finalConfig }

/-- The context a rule's check receives: the shared context with the rule's
configured options merged in. -/
def mergedCtx (ctx : LintContext) (cfg : RuleConfigC) : LintContext :=
  match cfg.options with
  | some opts => { ctx with options := some opts }
  | none => ctx

/-- The findings one rule contributes: its check's output with every severity
overwritten by the configured one; a throwing check contributes nothing. -/
def ruleContrib (rule : LintRuleM) (cfg : RuleConfigC) (ctx : LintContext) : List Finding :=
  match rule.check (mergedCtx ctx cfg) with
  | .ok ws => ws.map (fun w =>
      match cfg.severity with
      | .sev s => { w with severity := s }
      | .off => w)
  | .error _ => []

/-- The rule loop of `Linter.lint`: for each registered rule in order, skip
unconfigured, `off`, and ignored rules; count the rest and collect each
surviving rule's contribution. Returns (rules checked, aggregated findings). -/
def runRules (ruleConfig : List (Str × RuleConfigC)) (ignoredRules : List Str)
    (ignoreAll : Bool) (ctx : LintContext) : List (Str × LintRuleM) → Nat × List Finding
  | [] => (0, [])
  | (ruleId, rule) :: rest =>
    match mapGet ruleConfig ruleId with
    | none => runRules ruleConfig ignoredRules ignoreAll ctx rest
    | some cfg =>
      if cfg.severity = .off then runRules ruleConfig ignoredRules ignoreAll ctx rest
      else if ignoreAll || ignoredRules.contains ruleId then
        runRules ruleConfig ignoredRules ignoreAll ctx rest
      else
        ((runRules ruleConfig ignoredRules ignoreAll ctx rest).1 + 1,
         ruleContrib rule cfg ctx ++ (runRules ruleConfig ignoredRules ignoreAll ctx rest).2)

/-- Lint statistics (`LintResult['stats']`; wall time is not modelled). The
`llmCalls` counter of the shipped `Linter.lint` is initialized to zero and
never incremented. -/
structure LintStats where
  rulesChecked : Nat
  llmCalls : Nat
deriving DecidableEq, Repr

/-- A lint run result (`LintResult`). -/
structure LintResult where
  passed : Bool
  errors : List Finding
  warnings : List Finding
  info : List Finding
  stats : LintStats
deriving DecidableEq, Repr

/-- The body of `Linter.lint` after the render: parse the inline ignore
directives from the rendered text, run the rules, and bucket the findings by
severity. `llmCalls` is the constant zero of the source. -/
def Linter.lintOn (l : Linter) (ctx : LintContext) : LintResult :=
  let llmCalls := 0
  let ignoredRules := parseIgnoredRules ctx.text
  let ignoreAll := ignoredRules.contains "*".toList
  let rulesChecked := (runRules l.ruleConfig ignoredRules ignoreAll ctx l.rules).1
  let allWarnings := (runRules l.ruleConfig ignoredRules ignoreAll ctx l.rules).2
  let errors := allWarnings.filter (fun w => w.severity = .error)
  let warnings := allWarnings.filter (fun w => w.severity = .warning)
  let info := allWarnings.filter (fun w => w.severity = .info)
  { passed := errors.length = 0, errors := errors, warnings := warnings, info := info,
    stats := { rulesChecked := rulesChecked, llmCalls := llmCalls } }

/-- `Linter.lint`: render the prompt (over an already-enriched context), then
lint the rendered text. The token count comes from the external tokenizer
collaborator and is passed in. A render failure propagates. -/
def Linter.lint (l : Linter) (p : Prompt) (ectx : RenderContext) (tokenCount : Nat) :
    Except Str LintResult :=
  match p.render ectx with
  | .error e => .error e
  | .ok r =>
    .ok (l.lintOn
      { text := r.text, sections := p.sections, modelId := p.model,
        modelConfig := getModelConfig p.model, tokenCount := tokenCount })

/-- Two mappings have non-overlapping half-open output ranges: no character
offset lies in both. -/
def mappingRangesDisjoint (a b : SourceMapping) : Prop :=
  ∀ o : Nat, ¬(inRange a o = true ∧ inRange b o = true)

/-- Decidable sufficient test for `mappingRangesDisjoint`: separated or empty
ranges. -/
def rangesDisjointB (a b : SourceMapping) : Bool :=
  a.output.stop ≤ b.output.start || b.output.stop ≤ a.output.start ||
  a.output.stop ≤ a.output.start || b.output.stop ≤ b.output.start

/-- Every pair of mappings in the table is non-overlapping. -/
def pairwiseNonOverlapping (ms : List SourceMapping) : Prop :=
  List.Pairwise mappingRangesDisjoint ms

/-- Mappings appear in strictly increasing start order. -/
def strictlyIncreasingStarts (ms : List SourceMapping) : Prop :=
  List.Chain' (fun a b => a.output.start < b.output.start) ms

/-- Mappings appear in non-decreasing start order. -/
def nonDecreasingStarts (ms : List SourceMapping) : Prop :=
  List.Chain' (fun a b => a.output.start ≤ b.output.start) ms

/-- Consecutive mappings do not touch: each ends at or before the next
starts. -/
def chainedRanges (ms : List SourceMapping) : Prop :=
  List.Chain' (fun a b => a.output.stop ≤ b.output.start) ms

/-- Shorthand for a cacheable literal section declaration. -/
def litSec (ty : SectionType) (s : Str) (pr : Int) (c : Bool := true) : SectionConfig :=
  { type := ty, priority := pr, cacheable := c, content := .str s }

/-- Sortedness by priority. -/
def prioritySorted (l : List RenderedSection) : Prop :=
  List.Sorted (fun a b => a.priority ≤ b.priority) l

/-- All findings of a lint result carrying a given rule id, in bucket order. -/
def findingsOfId (r : LintResult) (id : Str) : List Finding :=
  (r.errors ++ r.warnings ++ r.info).filter (fun f => f.id = id)

/-- C1 counterexample input: a prompt with two empty literal sections (plain
formatter selected explicitly). -/
def promptTwoEmpty : Prompt :=
  { name := "two-empty".toList
    model := "claude-sonnet-4-20250514".toList
    sections := [litSec .identity [] 0, litSec .constraints [] 20]
    options := { format := some .plain } }

/-- C1 witness input: two sections with the identical literal text
`Be helpful.` at different output positions. -/
def promptTwoBeHelpful : Prompt :=
  { name := "two-be-helpful".toList
    model := "claude-sonnet-4-20250514".toList
    sections := [litSec .identity "Be helpful.".toList 0,
                 litSec .constraints "Be helpful.".toList 20]
    options := { format := some .plain } }

/-- C4 counterexample input: a table whose rendered text spans two lines,
with one fragment mapping on the second line. -/
def c4Table : SourceMap :=
  ((SourceMap.new "p".toList).setRenderedText "ab\ncd".toList).addFragmentMapping
    3 5 "frag1".toList "1.0.0".toList .identity 0 none none

/-- C2/C4 witness input: a table with two separated mappings. -/
def c2Table : SourceMap :=
  ((SourceMap.new "w".toList).setRenderedText "Hello.\nWorld.".toList).addFragmentMapping
    0 6 "fragA".toList "1.0.0".toList .identity 0 none none
  |>.addLiteralMapping 7 13 .constraints 1

/-- C5 failing input: the eligible lint run of the repo's own integration
tests (identity plus format section, zero heuristic errors). The `llm`
configuration the tests enable is ignored by the shipped constructor. -/
def promptEligible : Prompt :=
  { name := "test".toList
    model := "claude-sonnet-4-20250514".toList
    sections := [litSec .identity "You are a helpful assistant.".toList 0,
                 litSec .fmt "Respond clearly.".toList 70]
    options := {} }

/-- The lint run of `promptEligible` under the default configuration (token
count from the estimator collaborator). -/
def lintEligible : Except Str LintResult := (Linter.new {}).lint promptEligible [] 15

/-- C8 counterexample input, run A: a constraints-only prompt whose content
carries the `missing-identity` ignore directive twice. -/
def promptWithDirective : Prompt :=
  { name := "with-directive".toList
    model := "claude-sonnet-4-20250514".toList
    sections := [litSec .constraints "Always cite sources. [promptier-ignore: missing-identity]. Keep answers short and factual at all times. [promptier-ignore: missing-identity].".toList 20]
    options := {} }

/-- C8 counterexample input, run B: the same prompt without the directive. -/
def promptNoDirective : Prompt :=
  { name := "no-directive".toList
    model := "claude-sonnet-4-20250514".toList
    sections := [litSec .constraints "Always cite sources. Keep answers short and factual at all times.".toList 20]
    options := {} }

/-- The two C8 lint runs (default configuration; token counts from the
character-based estimator). -/
def lintWithDirective : Except Str LintResult := (Linter.new {}).lint promptWithDirective [] 43

/-- Run B of the C8 counterexample. -/
def lintNoDirective : Except Str LintResult := (Linter.new {}).lint promptNoDirective [] 21

/-- C9 scenario input: a prompt lacking an identity section. -/
def promptNoIdentity : Prompt :=
  { name := "no-identity".toList
    model := "claude-sonnet-4-20250514".toList
    sections := [litSec .constraints "Keep answers short.".toList 20]
    options := {} }

/-- The C9 scenario run: `missing-identity` configured to `error`. -/
def lintMissingIdentityAsError : Except Str LintResult :=
  (Linter.new { rules := [("missing-identity".toList, { severity := .sev .error })] }).lint
    promptNoIdentity [] 8

/-- C10 input: a prompt whose second section's literal content has leading and
trailing whitespace, rendered with the markdown formatter. -/
def promptUntrimmed : Prompt :=
  { name := "untrimmed".toList
    model := "claude-sonnet-4-20250514".toList
    sections := [litSec .identity "Hello.".toList 0,
                 litSec .constraints " Be helpful. ".toList 20]
    options := { format := some .markdown } }

/-- C6 witness inputs: a generator that rejects. -/
def failingGenSection : SectionConfig :=
  { type := .context, priority := 50, cacheable := false,
    content := .dyn (fun _ => .error "boom".toList) }

/-- A prompt whose only dynamic generator fails. -/
def promptFailingGen : Prompt :=
  { name := "failing-gen".toList
    model := "claude-sonnet-4-20250514".toList
    sections := [litSec .identity "You are helpful.".toList 0, failingGenSection]
    options := {} }

/-- C6 witness input: a rule whose check throws. -/
def throwingRule : LintRuleM :=
  { id := "throwing-rule".toList, category := "best-practice".toList,
    defaultSeverity := .warning,
    check := fun _ => .error "rule blew up".toList }

/-- A minimal lint context for loop-level witnesses. -/
def miniCtx : LintContext :=
  { text := "hello".toList, sections := [], modelId := "claude-sonnet-4-20250514".toList,
    modelConfig := getModelConfig "claude-sonnet-4-20250514".toList, tokenCount := 2 }

/-- The priority comparison underlying the cache-aware orderer. -/
def priLE (a b : RenderedSection) : Prop := a.priority ≤ b.priority

instance : DecidableRel priLE := fun a b => inferInstanceAs (Decidable (a.priority ≤ b.priority))

instance : IsTotal RenderedSection priLE := ⟨fun a b => Int.le_total a.priority b.priority⟩

instance : IsTrans RenderedSection priLE := ⟨fun _ _ _ hab hbc => le_trans hab hbc⟩

/-- C4 witness input: a table that never tracked rendered text. -/
def bareTable : SourceMap :=
  (SourceMap.new "bare".toList).addLiteralMapping 0 3 .identity 0

/-- The resolved, cache-ordered sections of `promptTwoBeHelpful`. -/
def beHelpfulSections : List RenderedSection :=
  match resolveSections promptTwoBeHelpful.sections [] with
  | .ok rs => optimizeForCaching rs
  | .error _ => []

/-- The rendered text of `promptTwoBeHelpful`. -/
def beHelpfulText : Str := promptTwoBeHelpful.formatText beHelpfulSections

/-- The provenance table of the C1 counterexample render. -/
def twoEmptyMap : SourceMap :=
  match promptTwoEmpty.render [] with
  | .ok r => r.sourceMap
  | .error _ => SourceMap.new []

/-- The rendered text of `promptUntrimmed`. -/
def untrimmedText : Str := "## Identity\n\nHello.\n\n## Constraints\n\nBe helpful.".toList

/-- The provenance table of the C10 render. -/
def untrimmedMap : SourceMap :=
  match promptUntrimmed.render [] with
  | .ok r => r.sourceMap
  | .error _ => SourceMap.new []

/-- A rendered section whose content does not occur in the text `ab`. -/
def notFoundSec : RenderedSection :=
  { type := .identity, content := "xyz".toList, priority := 0, cacheable := true }

/-- C8 witness input: a context whose text carries the bracket ignore-all
directive. -/
def ctxIgnoreAll : LintContext :=
  { text := "x [promptier-ignore-all] y".toList, sections := [],
    modelId := "claude-sonnet-4-20250514".toList,
    modelConfig := getModelConfig "claude-sonnet-4-20250514".toList, tokenCount := 5 }

/-- C9 witness input: the lint context of the identity-less run. -/
def noIdentityCtx : LintContext :=
  { text := "<constraints>Keep answers short.</constraints>".toList,
    sections := promptNoIdentity.sections,
    modelId := "claude-sonnet-4-20250514".toList,
    modelConfig := getModelConfig "claude-sonnet-4-20250514".toList, tokenCount := 8 }

/-- The finding `missing-identity` returns (at its own default severity). -/
def missingIdentityFinding : Finding :=
  { id := "missing-identity".toList, category := "best-practice".toList,
    severity := .warning,
    message := "No identity section. Agent may lack consistent persona.".toList,
    suggestion := some "Add an identity section to define who the agent is.".toList }

theorem insertByPriority_eq_orderedInsert (x : RenderedSection) (l : List RenderedSection) :
    insertByPriority x l = List.orderedInsert priLE x l := by
  induction l with
  | nil => rfl
  | cons y ys ih =>
    simp only [insertByPriority, List.orderedInsert, ih]
    rfl

theorem sortByPriority_eq_insertionSort (l : List RenderedSection) :
    sortByPriority l = List.insertionSort priLE l := by
  induction l with
  | nil => rfl
  | cons x xs ih => simp only [sortByPriority, List.insertionSort, ih, insertByPriority_eq_orderedInsert]

theorem sortByPriority_sorted (l : List RenderedSection) : prioritySorted (sortByPriority l) := by
  rw [sortByPriority_eq_insertionSort]
  exact List.sorted_insertionSort priLE l

theorem sortByPriority_perm (l : List RenderedSection) : (sortByPriority l).Perm l := by
  rw [sortByPriority_eq_insertionSort]
  exact List.perm_insertionSort priLE l

theorem sortByPriority_eq_of_sorted {l : List RenderedSection} (h : prioritySorted l) :
    sortByPriority l = l := by
  rw [sortByPriority_eq_insertionSort]
  exact List.Sorted.insertionSort_eq h

theorem insertByPriority_filter (x : RenderedSection) (l : List RenderedSection) (p : Int) :
    (insertByPriority x l).filter (fun s => s.priority = p) =
      if x.priority = p then x :: l.filter (fun s => s.priority = p)
      else l.filter (fun s => s.priority = p) := by
  induction l with
  | nil =>
    by_cases hx : x.priority = p <;> simp [insertByPriority, hx]
  | cons y ys ih =>
    simp only [insertByPriority]
    by_cases hle : x.priority ≤ y.priority
    · rw [if_pos hle]
      by_cases hx : x.priority = p
      · by_cases hyp : y.priority = p <;> simp [List.filter_cons, hx, hyp]
      · simp [List.filter_cons, hx]
    · rw [if_neg hle]
      by_cases hyp : y.priority = p
      · have hx : ¬x.priority = p := by
          intro h
          exact hle (by omega)
        simp [List.filter_cons, hyp, ih, hx]
      · by_cases hx : x.priority = p <;> simp [List.filter_cons, hyp, ih, hx]

theorem sortByPriority_stable (l : List RenderedSection) (p : Int) :
    (sortByPriority l).filter (fun s => s.priority = p) =
      l.filter (fun s => s.priority = p) := by
  induction l with
  | nil => rfl
  | cons x xs ih =>
    simp only [sortByPriority, insertByPriority_filter, ih]
    by_cases hx : x.priority = p <;> simp [hx, List.filter]

theorem sortByPriority_all {l : List RenderedSection} {P : RenderedSection → Bool}
    (h : ∀ x ∈ l, P x = true) : ∀ x ∈ sortByPriority l, P x = true := by
  intro x hx
  exact h x ((sortByPriority_perm l).mem_iff.mp hx)

/-- C3. The cache-aware orderer `optimizeForCaching` partitions into the
cacheable group followed by the non-cacheable group, stable-sorts each group
ascending by priority (sortedness, stability on equal priorities, and
permutation of the group), and is idempotent. -/
theorem C3_optimizeForCaching_stable_sorted_idempotent :
    (∀ sections : List RenderedSection,
      optimizeForCaching sections =
        sortByPriority (sections.filter (fun s => s.cacheable)) ++
        sortByPriority (sections.filter (fun s => !s.cacheable))) ∧
    (∀ l : List RenderedSection, prioritySorted (sortByPriority l)) ∧
    (∀ (l : List RenderedSection) (p : Int),
      (sortByPriority l).filter (fun s => s.priority = p) =
        l.filter (fun s => s.priority = p)) ∧
    (∀ l : List RenderedSection, (sortByPriority l).Perm l) ∧
    (∀ sections : List RenderedSection,
      optimizeForCaching (optimizeForCaching sections) = optimizeForCaching sections) := by
  refine ⟨fun _ => rfl, sortByPriority_sorted, sortByPriority_stable, sortByPriority_perm, ?_⟩
  intro sections
  unfold optimizeForCaching
  set A := sortByPriority (sections.filter (fun s => s.cacheable)) with hA
  set B := sortByPriority (sections.filter (fun s => !s.cacheable)) with hB
  have hAall : ∀ x ∈ A, x.cacheable = true := by
    rw [hA]
    exact sortByPriority_all (fun x hx => (List.mem_filter.mp hx).2)
  have hBall : ∀ x ∈ B, (!x.cacheable) = true := by
    rw [hB]
    exact sortByPriority_all (fun x hx => (List.mem_filter.mp hx).2)
  have h1 : (A ++ B).filter (fun s => s.cacheable) = A := by
    rw [List.filter_append]
    rw [List.filter_eq_self.mpr hAall]
    have : B.filter (fun s => s.cacheable) = [] := by
      apply List.filter_eq_nil_iff.mpr
      intro a ha
      have := hBall a ha
      simp_all
    rw [this, List.append_nil]
  have h2 : (A ++ B).filter (fun s => !s.cacheable) = B := by
    rw [List.filter_append]
    rw [List.filter_eq_self.mpr hBall]
    have : A.filter (fun s => !s.cacheable) = [] := by
      apply List.filter_eq_nil_iff.mpr
      intro a ha
      have := hAall a ha
      simp_all
    rw [this, List.nil_append]
  rw [h1, h2, sortByPriority_eq_of_sorted (hA ▸ sortByPriority_sorted _),
    sortByPriority_eq_of_sorted (hB ▸ sortByPriority_sorted _)]

theorem rangesDisjoint_of_b {a b : SourceMapping} (h : rangesDisjointB a b = true) :
    mappingRangesDisjoint a b := by
  intro o ho
  obtain ⟨h1, h2⟩ := ho
  unfold rangesDisjointB at h
  unfold inRange at h1 h2
  simp only [Bool.or_eq_true, decide_eq_true_eq, Bool.and_eq_true] at h h1 h2
  omega

theorem find?_inRange_of_disjoint {l : List SourceMapping}
    (hp : List.Pairwise mappingRangesDisjoint l) {m : SourceMapping} (hm : m ∈ l)
    {o : Nat} (ho : inRange m o = true) :
    l.find? (fun x => inRange x o) = some m := by
  induction l with
  | nil => cases hm
  | cons a rest ih =>
    rcases List.mem_cons.mp hm with rfl | hmem
    · exact List.find?_cons_of_pos _ ho
    · have hdis : mappingRangesDisjoint a m := (List.pairwise_cons.mp hp).1 m hmem
      have ha : ¬(inRange a o = true) := fun h => hdis o ⟨h, ho⟩
      rw [List.find?_cons_of_neg _ (by simpa using ha)]
      exact ih (List.pairwise_cons.mp hp).2 hmem

theorem originAtOffset_none_of_out (sm : SourceMap) (offset : Nat)
    (h : ∀ m ∈ sm.mappings, inRange m offset = false) :
    sm.originAtOffset offset = none := by
  unfold SourceMap.originAtOffset
  rw [List.find?_eq_none.mpr (fun m hm => by simp [h m hm])]
  rfl

/-- C2. On a table with pairwise non-overlapping mapping ranges,
`originAtOffset` returns exactly the origin of the mapping containing the
offset, and `null` for offsets inside no mapping's range. -/
theorem C2_originAtOffset_exact :
    (∀ (sm : SourceMap) (m : SourceMapping) (offset : Nat),
      pairwiseNonOverlapping sm.mappings → m ∈ sm.mappings → inRange m offset = true →
      sm.originAtOffset offset = some m.source) ∧
    (∀ (sm : SourceMap) (offset : Nat),
      (∀ m ∈ sm.mappings, inRange m offset = false) →
      sm.originAtOffset offset = none) := by
  constructor
  · intro sm m offset hp hm ho
    unfold SourceMap.originAtOffset
    rw [find?_inRange_of_disjoint hp hm ho]
    rfl
  · exact originAtOffset_none_of_out

/-- Witness for C2 at a concrete two-mapping table. -/
theorem C2_witness :
    pairwiseNonOverlapping c2Table.mappings ∧
    c2Table.originAtOffset 8 = some (.literal .constraints 1) ∧
    c2Table.originAtOffset 6 = none := by
  have hp : pairwiseNonOverlapping c2Table.mappings := by
    unfold pairwiseNonOverlapping
    refine List.Pairwise.cons (fun m hm => ?_) (List.pairwise_singleton _ _)
    have hm' : m = { output := { start := 7, stop := 13, line := 2, column := 1 },
                     source := .literal .constraints 1 } := by
      simpa [c2Table, SourceMap.new, SourceMap.setRenderedText, SourceMap.addFragmentMapping,
        SourceMap.addLiteralMapping, SourceMap.addMapping] using hm
    subst hm'
    exact rangesDisjoint_of_b (by decide)
  refine ⟨hp, ?_, ?_⟩
  · exact C2_originAtOffset_exact.1 c2Table
      { output := { start := 7, stop := 13, line := 2, column := 1 },
        source := .literal .constraints 1 } 8 hp (by decide) (by decide)
  · exact C2_originAtOffset_exact.2 c2Table 6 (by decide)

theorem foldl_addMapping_mappings (ms : List SourceMapping) (sm0 : SourceMap) :
    (ms.foldl (fun sm m => sm.addMapping m) sm0) =
      { sm0 with mappings := sm0.mappings ++ ms } := by
  induction ms generalizing sm0 with
  | nil => simp
  | cons m rest ih =>
    rw [List.foldl_cons, ih]
    simp [SourceMap.addMapping]

theorem fromJSON_toJSON (sm : SourceMap) :
    SourceMap.fromJSON sm.toJSON =
      { prompt := sm.prompt, mappings := sm.mappings, renderedText := [] } := by
  unfold SourceMap.fromJSON SourceMap.toJSON SourceMap.new
  rw [foldl_addMapping_mappings]
  simp

/-- C4 (amended). Serialize-then-deserialize preserves the prompt name, the
mapping list (hence mapping order), every `originAtOffset` result and every
`positionsFrom` result; `originAt` line/column queries are preserved when the
original table's tracked rendered text is empty (deserialization leaves the
rendered text empty, so tables that tracked a nonempty text can answer
`originAt` differently after the round trip). -/
theorem C4_roundtrip_preserves_offset_queries :
    ∀ sm : SourceMap,
      (SourceMap.fromJSON sm.toJSON).prompt = sm.prompt ∧
      (SourceMap.fromJSON sm.toJSON).mappings = sm.mappings ∧
      (∀ o : Nat, (SourceMap.fromJSON sm.toJSON).originAtOffset o = sm.originAtOffset o) ∧
      (∀ fid : Str, (SourceMap.fromJSON sm.toJSON).positionsFrom fid = sm.positionsFrom fid) ∧
      (sm.renderedText = [] →
        ∀ line column : Nat,
          (SourceMap.fromJSON sm.toJSON).originAt line column = sm.originAt line column) := by
  intro sm
  rw [fromJSON_toJSON]
  refine ⟨rfl, rfl, fun o => rfl, fun fid => rfl, fun htext line column => ?_⟩
  unfold SourceMap.originAt SourceMap.getCharOffset
  rw [htext]

/-- Witness for C4 at a table that never tracked rendered text. -/
theorem C4_witness :
    bareTable.renderedText = [] ∧
    (SourceMap.fromJSON bareTable.toJSON).mappings = bareTable.mappings ∧
    (SourceMap.fromJSON bareTable.toJSON).originAtOffset 1 = bareTable.originAtOffset 1 ∧
    (SourceMap.fromJSON bareTable.toJSON).positionsFrom "f".toList = bareTable.positionsFrom "f".toList ∧
    (SourceMap.fromJSON bareTable.toJSON).originAt 1 2 = bareTable.originAt 1 2 := by
  refine ⟨rfl, (C4_roundtrip_preserves_offset_queries bareTable).2.1,
    (C4_roundtrip_preserves_offset_queries bareTable).2.2.1 1,
    (C4_roundtrip_preserves_offset_queries bareTable).2.2.2.1 "f".toList,
    (C4_roundtrip_preserves_offset_queries bareTable).2.2.2.2 rfl 1 2⟩

/-- Counterexample for C4 as frozen: on a table whose rendered text spans two
lines, the `originAt` line/column query answers differently after a
serialization round trip, because `fromJSON` does not restore the rendered
text used for the line-to-offset conversion. -/
theorem C4_counterexample_originAt_not_preserved :
    c4Table.originAt 2 1 =
      some (.fragment "frag1".toList "1.0.0".toList .identity 0 none none) ∧
    (SourceMap.fromJSON c4Table.toJSON).originAt 2 1 = none := by
  constructor
  · decide
  · decide

/-- C7. `parseSemanticResponse` is total and resilient: the parsing
strategies are attempted in order (direct parse, fence extraction, bracket
slice); when every strategy fails, or when the parsed value is not an array,
the result is exactly the single `semantic-parse-error` finding at `info`
severity; in particular the raw output `not json` yields exactly that one
finding. -/
theorem C7_parseSemanticResponse_resilient :
    (∀ raw v, jsonParse (jsTrim raw) = some v → tryParse raw = some v) ∧
    (∀ raw body v, jsonParse (jsTrim raw) = none → extractFenceBody (jsTrim raw) = some body →
      jsonParse (jsTrim body) = some v → tryParse raw = some v) ∧
    (∀ raw slice v, jsonParse (jsTrim raw) = none → extractFenceBody (jsTrim raw) = none →
      extractBracketSlice (jsTrim raw) = some slice → jsonParse slice = some v →
      tryParse raw = some v) ∧
    (∀ raw, tryParse raw = none → parseSemanticResponse raw = [parseErrorFinding]) ∧
    (∀ raw v, tryParse raw = some v → (∀ items, v ≠ .jArr items) →
      parseSemanticResponse raw = [parseErrorFinding]) ∧
    (parseSemanticResponse "not json".toList = [parseErrorFinding] ∧
      parseErrorFinding.id = "semantic-parse-error".toList ∧
      parseErrorFinding.severity = .info) := by
  refine ⟨?_, ?_, ?_, ?_, ?_, by decide, by decide, by decide⟩
  · intro raw v h
    unfold tryParse
    rw [h]
  · intro raw body v h1 h2 h3
    unfold tryParse
    simp [h1, h2, h3]
  · intro raw slice v h1 h2 h3 h4
    unfold tryParse
    simp [h1, h2, h3, h4]
  · intro raw h
    unfold parseSemanticResponse
    rw [h]
  · intro raw v h hv
    unfold parseSemanticResponse
    rw [h]
    match v, hv with
    | .jNull, _ => rfl
    | .jBool b, _ => rfl
    | .jNum n, _ => rfl
    | .jStr s, _ => rfl
    | .jObj f, _ => rfl
    | .jArr items, hv => exact absurd rfl (hv items)

/-- Witness for C7: the fallback clauses applied at `not json` (no strategy
succeeds) and at `42` (direct parse succeeds with a non-array). -/
theorem C7_witness :
    tryParse "not json".toList = none ∧
    parseSemanticResponse "not json".toList = [parseErrorFinding] ∧
    tryParse "42".toList = some (.jNum "42".toList) ∧
    parseSemanticResponse "42".toList = [parseErrorFinding] := by
  refine ⟨rfl, C7_parseSemanticResponse_resilient.2.2.2.1 "not json".toList rfl, rfl, ?_⟩
  exact C7_parseSemanticResponse_resilient.2.2.2.2.1 "42".toList (.jNum "42".toList) rfl
    (fun items h => by cases h)

theorem indexOfLoop_spec {s pat : Str} :
    ∀ {fuel k r : Nat}, indexOfLoop s pat k fuel = some r →
      k ≤ r ∧ r < k + fuel ∧ hasMatchAt s pat r = true := by
  intro fuel
  induction fuel with
  | zero => intro k r h; cases h
  | succ n ih =>
    intro k r h
    unfold indexOfLoop at h
    by_cases hm : hasMatchAt s pat k = true
    · rw [if_pos hm] at h
      cases h
      exact ⟨le_refl _, by omega, hm⟩
    · rw [if_neg hm] at h
      obtain ⟨h1, h2, h3⟩ := ih h
      exact ⟨by omega, by omega, h3⟩

theorem hasMatchAt_patLen {s pat : Str} {k : Nat} (h : hasMatchAt s pat k = true) :
    pat.length ≤ s.length - k := by
  unfold hasMatchAt at h
  have hlen : (((s.drop k).take pat.length).length) = pat.length := by
    rw [decide_eq_true_eq] at h
    rw [h]
  rw [List.length_take, List.length_drop] at hlen
  omega

theorem indexOfFrom_spec {s pat : Str} {st r : Nat} (hst : st ≤ s.length)
    (h : indexOfFrom s pat st = some r) :
    st ≤ r ∧ r + pat.length ≤ s.length := by
  unfold indexOfFrom at h
  have hmin : min st s.length = st := by omega
  rw [hmin] at h
  obtain ⟨h1, h2, h3⟩ := indexOfLoop_spec h
  have hr : r ≤ s.length := by omega
  have := hasMatchAt_patLen h3
  exact ⟨h1, by omega⟩

theorem buildMappings_spec (text : Str) :
    ∀ (sections : List RenderedSection) (i offset : Nat), offset ≤ text.length →
      (∀ m ∈ buildMappings text sections i offset,
        offset ≤ m.output.start ∧ m.output.start ≤ m.output.stop ∧ m.output.stop ≤ text.length) ∧
      List.Pairwise (fun a b => a.output.stop ≤ b.output.start)
        (buildMappings text sections i offset) ∧
      ((∀ s ∈ sections, s.content ≠ []) →
        ∀ m ∈ buildMappings text sections i offset, m.output.start < m.output.stop) := by
  intro sections
  induction sections with
  | nil =>
    intro i offset _
    refine ⟨?_, ?_, ?_⟩
    · intro m hm
      simp only [buildMappings] at hm
      cases hm
    · exact List.Pairwise.nil
    · intro _ m hm
      simp only [buildMappings] at hm
      cases hm
  | cons s rest ih =>
    intro i offset hoff
    unfold buildMappings
    cases hfind : indexOfFrom text s.content offset with
    | none =>
      obtain ⟨ha, hb, hc⟩ := ih (i + 1) offset hoff
      exact ⟨ha, hb, fun hne m hm => hc (fun x hx => hne x (List.mem_cons_of_mem s hx)) m hm⟩
    | some sectionStart =>
      obtain ⟨hge, hend⟩ := indexOfFrom_spec hoff hfind
      have hend' : sectionStart + s.content.length ≤ text.length := hend
      obtain ⟨ha, hb, hc⟩ := ih (i + 1) (sectionStart + s.content.length) hend'
      refine ⟨?_, ?_, ?_⟩
      · intro m hm
        rcases List.mem_cons.mp hm with rfl | hmem
        · exact ⟨hge, by simp, hend'⟩
        · obtain ⟨h1, h2, h3⟩ := ha m hmem
          exact ⟨by omega, h2, h3⟩
      · refine List.Pairwise.cons (fun m hm => ?_) hb
        exact (ha m hm).1
      · intro hne m hm
        rcases List.mem_cons.mp hm with rfl | hmem
        · have : s.content ≠ [] := hne s (List.mem_cons_self s rest)
          have : s.content.length ≠ 0 := fun h => this (List.length_eq_zero.mp h)
          simp only
          omega
        · exact hc (fun x hx => hne x (List.mem_cons_of_mem s hx)) m hmem

theorem pairwise_sep_disjoint {ms : List SourceMapping}
    (hsep : List.Pairwise (fun a b => a.output.stop ≤ b.output.start) ms) :
    pairwiseNonOverlapping ms := by
  refine hsep.imp ?_
  intro a b hab o ho
  obtain ⟨h1, h2⟩ := ho
  unfold inRange at h1 h2
  simp only [Bool.and_eq_true, decide_eq_true_eq] at h1 h2
  omega

theorem chain_starts_of_sep {ms : List SourceMapping}
    (hbd : ∀ m ∈ ms, m.output.start ≤ m.output.stop)
    (hsep : List.Pairwise (fun a b => a.output.stop ≤ b.output.start) ms) :
    nonDecreasingStarts ms := by
  unfold nonDecreasingStarts
  induction ms with
  | nil => exact List.chain'_nil
  | cons a l ih =>
    rcases l with _ | ⟨b, l'⟩
    · exact List.chain'_singleton a
    · rw [List.chain'_cons]
      refine ⟨?_, ih (fun m hm => hbd m (List.mem_cons_of_mem a hm)) (List.pairwise_cons.mp hsep).2⟩
    
      have hab := (List.pairwise_cons.mp hsep).1 b (List.mem_cons_self b l')
      have haa := hbd a (List.mem_cons_self a _)
      omega

theorem chain_strict_of_sep {ms : List SourceMapping}
    (hbd : ∀ m ∈ ms, m.output.start < m.output.stop)
    (hsep : List.Pairwise (fun a b => a.output.stop ≤ b.output.start) ms) :
    strictlyIncreasingStarts ms := by
  unfold strictlyIncreasingStarts
  induction ms with
  | nil => exact List.chain'_nil
  | cons a l ih =>
    rcases l with _ | ⟨b, l'⟩
    · exact List.chain'_singleton a
    · rw [List.chain'_cons]
      refine ⟨?_, ih (fun m hm => hbd m (List.mem_cons_of_mem a hm)) (List.pairwise_cons.mp hsep).2⟩
      have hab := (List.pairwise_cons.mp hsep).1 b (List.mem_cons_self b l')
      have haa := hbd a (List.mem_cons_self a _)
      omega

/-- C1 (amended). The provenance table built by the forward-only search of
`buildSourceMap` always has pairwise non-overlapping mapping ranges in
non-decreasing start order; the starts are strictly increasing whenever every
section's resolved content is nonempty (sections resolving to the empty
string are located at the current cursor and yield empty ranges that can
share a start). In particular two sections with identical nonempty text get
distinct, non-overlapping mappings. -/
theorem C1_buildSourceMap_ordering :
    ∀ (name text : Str) (sections : List RenderedSection),
      pairwiseNonOverlapping (buildSourceMap name text sections).mappings ∧
      nonDecreasingStarts (buildSourceMap name text sections).mappings ∧
      ((∀ s ∈ sections, s.content ≠ []) →
        strictlyIncreasingStarts (buildSourceMap name text sections).mappings) := by
  intro name text sections
  obtain ⟨ha, hb, hc⟩ := buildMappings_spec text sections 0 0 (Nat.zero_le _)
  have hmap : (buildSourceMap name text sections).mappings = buildMappings text sections 0 0 := rfl
  rw [hmap]
  exact ⟨pairwise_sep_disjoint hb,
    chain_starts_of_sep (fun m hm => (ha m hm).2.1) hb,
    fun hne => chain_strict_of_sep (fun m hm => (hc hne m hm)) hb⟩

/-- Witness for C1 at the spec's own scenario: two sections with the
identical literal text `Be helpful.`, rendered by the plain formatter, get
two distinct non-overlapping mappings in strictly increasing start order. -/
theorem C1_witness :
    (∀ s ∈ beHelpfulSections, s.content ≠ []) ∧
    pairwiseNonOverlapping
      (buildSourceMap promptTwoBeHelpful.name beHelpfulText beHelpfulSections).mappings ∧
    strictlyIncreasingStarts
      (buildSourceMap promptTwoBeHelpful.name beHelpfulText beHelpfulSections).mappings ∧
    promptTwoBeHelpful.render [] =
      .ok { text := beHelpfulText,
            sourceMap := buildSourceMap promptTwoBeHelpful.name beHelpfulText beHelpfulSections } ∧
    (buildSourceMap promptTwoBeHelpful.name beHelpfulText beHelpfulSections).mappings.map
      (fun m => (m.output.start, m.output.stop)) = [(11, 22), (43, 54)] := by
  refine ⟨by decide,
    (C1_buildSourceMap_ordering promptTwoBeHelpful.name beHelpfulText beHelpfulSections).1,
    (C1_buildSourceMap_ordering promptTwoBeHelpful.name beHelpfulText beHelpfulSections).2.2
      (by decide),
    rfl, by decide⟩

/-- Counterexample for C1 as frozen: a render of two sections that both
resolve to the empty string produces two mappings that share the start
offset 0, so the mapping starts are not strictly increasing. -/
theorem C1_counterexample_empty_sections :
    (promptTwoEmpty.render []).isOk = true ∧
    twoEmptyMap.mappings.map (fun m => (m.output.start, m.output.stop)) = [(0, 0), (0, 0)] ∧
    ¬ strictlyIncreasingStarts twoEmptyMap.mappings := by
  refine ⟨rfl, by decide, ?_⟩
  intro h
  unfold strictlyIncreasingStarts at h
  have : twoEmptyMap.mappings.map (fun m => m.output.start) = [0, 0] := by decide
  rcases hm : twoEmptyMap.mappings with _ | ⟨a, _ | ⟨b, l⟩⟩ <;> rw [hm] at this h <;>
    simp at this
  obtain ⟨h1, h2, h3⟩ := this
  rw [List.chain'_cons] at h
  omega

/-- C10. A section whose literal content carries leading/trailing whitespace
is emitted trimmed by the markdown formatter, so the assembler's forward
search for the untrimmed content fails and the section silently gets no
mapping, while the render succeeds and keeps the other sections' mappings:
the skip branch of `buildMappings` is a no-op for the unfound section, and in
the concrete render the second section's characters all answer `null`. -/
theorem C10_trimmed_content_loses_mapping :
    (∀ (text : Str) (sec : RenderedSection) (rest : List RenderedSection) (i offset : Nat),
      indexOfFrom text sec.content offset = none →
      buildMappings text (sec :: rest) i offset = buildMappings text rest (i + 1) offset) ∧
    promptUntrimmed.render [] =
      .ok { text := untrimmedText, sourceMap := untrimmedMap } ∧
    indexOfFrom untrimmedText " Be helpful. ".toList 19 = none ∧
    indexOfFrom untrimmedText "Be helpful.".toList 19 = some 37 ∧
    untrimmedMap.mappings.map (fun m => (m.output.start, m.output.stop)) = [(13, 19)] ∧
    (∀ o : Nat, 19 ≤ o → untrimmedMap.originAtOffset o = none) := by
  refine ⟨?_, rfl, rfl, rfl, by decide, ?_⟩
  · intro text sec rest i offset h
    simp only [buildMappings, h]
  · intro o ho
    apply originAtOffset_none_of_out
    intro m hm
    have hm' : m.output.start = 13 ∧ m.output.stop = 19 := by
      have : untrimmedMap.mappings.map (fun m => (m.output.start, m.output.stop)) = [(13, 19)] := by
        decide
      rcases hmm : untrimmedMap.mappings with _ | ⟨a, l⟩ <;> rw [hmm] at this hm
      · cases hm
      · simp at this
        rcases List.mem_cons.mp hm with rfl | hmem
        · exact ⟨this.1.1, this.1.2⟩
        · rw [this.2] at hmem
          cases hmem
    unfold inRange
    rw [hm'.2]
    rw [decide_eq_false (by omega : ¬ o < 19), Bool.and_false]

/-- Witness for C10: the skip branch applied at a concrete unfound section,
and a `null` query over the unmapped second section's characters. -/
theorem C10_witness :
    untrimmedMap.originAtOffset 37 = none ∧
    buildMappings "ab".toList [notFoundSec] 0 0 = buildMappings "ab".toList [] 1 0 :=
  ⟨C10_trimmed_content_loses_mapping.2.2.2.2.2 37 (by omega),
   C10_trimmed_content_loses_mapping.1 "ab".toList notFoundSec [] 0 0 rfl⟩

theorem resolveContent_error_isDynamic {s : SectionConfig} {ctx : RenderContext} {e : Str}
    (h : resolveContent s.content ctx = .error e) : s.isDynamic = true := by
  cases hc : s.content with
  | str str => rw [hc] at h; cases h
  | frag f => rw [hc] at h; cases h
  | dyn g => unfold SectionConfig.isDynamic; rw [hc]

theorem resolveSectionsAux_error_iff (ctx : RenderContext) :
    ∀ (sections : List SectionConfig) (i : Nat),
      (∃ e, resolveSectionsAux ctx sections i = .error e) ↔
      (∃ s ∈ sections, s.isDynamic = true ∧ ∃ e, resolveContent s.content ctx = .error e) := by
  intro sections
  induction sections with
  | nil =>
    intro i
    constructor
    · rintro ⟨e, h⟩
      cases h
    · rintro ⟨s, hs, _⟩
      cases hs
  | cons s rest ih =>
    intro i
    constructor
    · rintro ⟨e, h⟩
      unfold resolveSectionsAux at h
      cases hrc : resolveContent s.content ctx with
      | error e2 =>
        exact ⟨s, List.mem_cons_self s rest, resolveContent_error_isDynamic hrc, e2, hrc⟩
      | ok c =>
        rw [hrc] at h
        cases hrec : resolveSectionsAux ctx rest (i + 1) with
        | error e2 =>
          obtain ⟨t, ht, h3⟩ := (ih (i + 1)).1 ⟨e2, hrec⟩
          exact ⟨t, List.mem_cons_of_mem s ht, h3⟩
        | ok tail =>
          rw [hrec] at h
          cases h
    · rintro ⟨t, ht, hdyn, e, herr⟩
      rcases List.mem_cons.mp ht with rfl | hmem
      · refine ⟨e, ?_⟩
        unfold resolveSectionsAux
        rw [herr]
      · unfold resolveSectionsAux
        cases hrc : resolveContent s.content ctx with
        | error e2 => exact ⟨e2, rfl⟩
        | ok c =>
          obtain ⟨e2, hrec⟩ := (ih (i + 1)).2 ⟨t, hmem, hdyn, e, herr⟩
          rw [hrec]
          exact ⟨e2, rfl⟩

theorem render_error_iff_resolve (p : Prompt) (ctx : RenderContext) (e : Str) :
    p.render ctx = .error e ↔ resolveSections p.sections ctx = .error e := by
  unfold Prompt.render
  cases hr : resolveSections p.sections ctx with
  | error e2 => simp
  | ok rs => simp

theorem runRules_append (ruleConfig : List (Str × RuleConfigC)) (ign : List Str) (ia : Bool)
    (ctx : LintContext) (l1 l2 : List (Str × LintRuleM)) :
    runRules ruleConfig ign ia ctx (l1 ++ l2) =
      ((runRules ruleConfig ign ia ctx l1).1 + (runRules ruleConfig ign ia ctx l2).1,
       (runRules ruleConfig ign ia ctx l1).2 ++ (runRules ruleConfig ign ia ctx l2).2) := by
  induction l1 with
  | nil => simp [runRules]
  | cons hd tl ih =>
    obtain ⟨rid, rule⟩ := hd
    cases hmg : mapGet ruleConfig rid with
    | none => simp [runRules, hmg, ih]
    | some cfg =>
      by_cases hoff : cfg.severity = .off
      · simp [runRules, hmg, hoff, ih]
      · by_cases hig : (ia || ign.contains rid) = true
        · have hig' : ia = true ∨ rid ∈ ign := by simpa using hig
          simp [runRules, hmg, hoff, hig', ih]
        · have hig' : ¬(ia = true ∨ rid ∈ ign) := by simpa using hig
          refine Prod.ext ?_ ?_ <;>
            simp [runRules, hmg, hoff, hig', ih, List.append_assoc] <;> omega

/-- C6. Exception contract: `render` fails exactly when some dynamic
section's generator fails (and the failure is exactly a resolution failure,
propagated to the caller), while the rule loop of `lint` survives a throwing
rule: the run's findings are those of the same run without the throwing rule
(all other rules still contribute), the throwing rule still being counted in
the checked-rules stat. -/
theorem C6_render_throws_lint_does_not :
    (∀ (p : Prompt) (ctx : RenderContext),
      (∃ e, p.render ctx = .error e) ↔
      (∃ s ∈ p.sections, s.isDynamic = true ∧ ∃ e, resolveContent s.content ctx = .error e)) ∧
    (∀ (p : Prompt) (ctx : RenderContext) (e : Str),
      p.render ctx = .error e ↔ resolveSections p.sections ctx = .error e) ∧
    (∀ (ruleConfig : List (Str × RuleConfigC)) (ign : List Str) (ia : Bool) (ctx : LintContext)
        (l1 l2 : List (Str × LintRuleM)) (rid : Str) (bad : LintRuleM) (cfg : RuleConfigC) (e : Str),
      mapGet ruleConfig rid = some cfg → cfg.severity ≠ .off →
      (ia || ign.contains rid) = false →
      bad.check (mergedCtx ctx cfg) = .error e →
      (runRules ruleConfig ign ia ctx (l1 ++ (rid, bad) :: l2)).2 =
        (runRules ruleConfig ign ia ctx (l1 ++ l2)).2 ∧
      (runRules ruleConfig ign ia ctx (l1 ++ (rid, bad) :: l2)).1 =
        (runRules ruleConfig ign ia ctx (l1 ++ l2)).1 + 1) := by
  refine ⟨?_, render_error_iff_resolve, ?_⟩
  · intro p ctx
    have hprop : (∃ e, p.render ctx = .error e) ↔ (∃ e, resolveSections p.sections ctx = .error e) := by
      constructor
      · rintro ⟨e, h⟩
        exact ⟨e, (render_error_iff_resolve p ctx e).1 h⟩
      · rintro ⟨e, h⟩
        exact ⟨e, (render_error_iff_resolve p ctx e).2 h⟩
    rw [hprop]
    exact resolveSectionsAux_error_iff ctx p.sections 0
  · intro ruleConfig ign ia ctx l1 l2 rid bad cfg e hmg hoff hig hcheck
    have hsingle : runRules ruleConfig ign ia ctx ((rid, bad) :: l2) =
        ((runRules ruleConfig ign ia ctx l2).1 + 1,
         (runRules ruleConfig ign ia ctx l2).2) := by
      have hcontrib : ruleContrib bad cfg ctx = [] := by
        unfold ruleContrib
        rw [hcheck]
      have hig' : ¬(ia = true ∨ rid ∈ ign) := by
        simpa using hig
      simp [runRules, hmg, hoff, hig', hcontrib]
    rw [runRules_append ruleConfig ign ia ctx l1 ((rid, bad) :: l2),
      runRules_append ruleConfig ign ia ctx l1 l2, hsingle]
    exact ⟨rfl, by omega⟩

/-- Witness for C6: the contract applied at a prompt whose only generator
rejects (its error propagates verbatim) and at a singleton rule list whose
one rule throws (no findings, one rule counted). -/
theorem C6_witness :
    ((∃ e, promptFailingGen.render [] = .error e) ↔
      (∃ s ∈ promptFailingGen.sections, s.isDynamic = true ∧
        ∃ e, resolveContent s.content [] = .error e)) ∧
    promptFailingGen.render [] = .error "boom".toList ∧
    (runRules [("throwing-rule".toList, { severity := .sev .warning : RuleConfigC })] [] false
        miniCtx ([] ++ ("throwing-rule".toList, throwingRule) :: [])).2 =
      (runRules [("throwing-rule".toList, { severity := .sev .warning : RuleConfigC })] [] false
        miniCtx ([] ++ [])).2 ∧
    (runRules [("throwing-rule".toList, { severity := .sev .warning : RuleConfigC })] [] false
        miniCtx ([] ++ ("throwing-rule".toList, throwingRule) :: [])).1 =
      (runRules [("throwing-rule".toList, { severity := .sev .warning : RuleConfigC })] [] false
        miniCtx ([] ++ [])).1 + 1 := by
  have hiso := C6_render_throws_lint_does_not.2.2
    [("throwing-rule".toList, { severity := .sev .warning : RuleConfigC })] [] false miniCtx
    [] [] "throwing-rule".toList throwingRule { severity := .sev .warning : RuleConfigC }
    "rule blew up".toList rfl (by decide) rfl rfl
  exact ⟨C6_render_throws_lint_does_not.1 promptFailingGen [], rfl, hiso.1, hiso.2⟩

/-- C5 (on the shipped code). The lint loop never performs an external
reasoning call: `llmCalls` is initialized to zero and never incremented, for
every linter and every run — including the eligible run of the repository's
own integration tests (identity plus format prompt, zero heuristic errors),
where the tests demand `stats.llmCalls = 1` and one provider call. -/
theorem C5_llmCalls_always_zero :
    (∀ (l : Linter) (ctx : LintContext), (l.lintOn ctx).stats.llmCalls = 0) ∧
    lintEligible.map (fun r => (r.passed, r.errors.length, r.stats.rulesChecked, r.stats.llmCalls)) =
      .ok (true, 0, 11, 0) := by
  exact ⟨fun l ctx => rfl, by decide⟩

theorem runRules_ignoreAll (cfgm : List (Str × RuleConfigC)) (ign : List Str)
    (ctx : LintContext) :
    ∀ rules : List (Str × LintRuleM), runRules cfgm ign true ctx rules = (0, []) := by
  intro rules
  induction rules with
  | nil => rfl
  | cons hd tl ih =>
    obtain ⟨rid, rule⟩ := hd
    cases hmg : mapGet cfgm rid with
    | none => simp [runRules, hmg, ih]
    | some cfg =>
      by_cases hoff : cfg.severity = .off
      · simp [runRules, hmg, hoff, ih]
      · simp [runRules, hmg, hoff, ih]

theorem runRules_ignored_filter (cfgm : List (Str × RuleConfigC)) (ign : List Str)
    (ctx : LintContext) :
    ∀ rules : List (Str × LintRuleM),
      runRules cfgm ign false ctx rules =
        runRules cfgm [] false ctx (rules.filter (fun r => !ign.contains r.1)) := by
  intro rules
  induction rules with
  | nil => rfl
  | cons hd tl ih =>
    obtain ⟨rid, rule⟩ := hd
    by_cases hcont : ign.contains rid = true
    · have hin : rid ∈ ign := by simpa using hcont
      cases hmg : mapGet cfgm rid with
      | none => simp [runRules, hmg, ih, List.filter_cons, hcont, hin]
      | some cfg =>
        by_cases hoff : cfg.severity = .off
        · simp [runRules, hmg, hoff, ih, List.filter_cons, hcont, hin]
        · simp [runRules, hmg, hoff, hin, ih, List.filter_cons, hcont]
    · have hninmem : ¬rid ∈ ign := by simpa using hcont
      have hnin : ¬(false = true ∨ rid ∈ ign) := by simpa using hcont
      have hnin2 : ¬(false = true ∨ rid ∈ ([] : List Str)) := by simp
      cases hmg : mapGet cfgm rid with
      | none => simp [runRules, hmg, ih, List.filter_cons, hcont, hninmem]
      | some cfg =>
        by_cases hoff : cfg.severity = .off
        · simp [runRules, hmg, hoff, ih, List.filter_cons, hcont, hninmem]
        · simp [runRules, hmg, hoff, hnin, hnin2, hninmem, ih, List.filter_cons, hcont]

theorem lintOn_ignoreAll (l : Linter) (ctx : LintContext)
    (h : parseIgnoredRules ctx.text = ["*".toList]) :
    (l.lintOn ctx).errors = [] ∧ (l.lintOn ctx).warnings = [] ∧
    (l.lintOn ctx).info = [] ∧ (l.lintOn ctx).passed = true := by
  have hstar : (["*".toList] : List Str).contains "*".toList = true := by decide
  simp only [Linter.lintOn, h, hstar, runRules_ignoreAll]
  simp

/-- C8 (amended). An inline directive set removes exactly the ignored rules
from the run: with ignore-all unset, the run over the registry with an
ignored set equals the run over the registry with the ignored rules filtered
out (so an ignored rule contributes nothing while every other rule
contributes exactly its check output on the same context); a text carrying an
ignore-all directive (either syntax) parses to the `*` sentinel, under which
the run produces zero findings — whatever rules, built-in or custom, are
registered — and passes. Relative to a run of the prompt without the
directive, another rule's findings can still change when its check reads the
directive text itself (see the counterexample). -/
theorem C8_ignore_directives_remove_rules :
    (∀ (cfgm : List (Str × RuleConfigC)) (ign : List Str) (ctx : LintContext)
        (rules : List (Str × LintRuleM)),
      runRules cfgm ign false ctx rules =
        runRules cfgm [] false ctx (rules.filter (fun r => !ign.contains r.1))) ∧
    (∀ text : Str, hasIgnoreAllDirective text = true → parseIgnoredRules text = ["*".toList]) ∧
    (∀ (l : Linter) (ctx : LintContext),
      parseIgnoredRules ctx.text = ["*".toList] →
      (l.lintOn ctx).errors = [] ∧ (l.lintOn ctx).warnings = [] ∧
      (l.lintOn ctx).info = [] ∧ (l.lintOn ctx).passed = true) := by
  refine ⟨runRules_ignored_filter, ?_, lintOn_ignoreAll⟩
  intro text h
  unfold parseIgnoredRules
  rw [h]
  rfl

/-- Witness for C8: the ignore-all clause applied at a concrete run whose
text carries `[promptier-ignore-all]`, and the filter clause applied at a
concrete one-rule registry with that rule ignored. -/
theorem C8_witness :
    parseIgnoredRules ctxIgnoreAll.text = ["*".toList] ∧
    ((Linter.new {}).lintOn ctxIgnoreAll).errors = [] ∧
    ((Linter.new {}).lintOn ctxIgnoreAll).warnings = [] ∧
    ((Linter.new {}).lintOn ctxIgnoreAll).info = [] ∧
    ((Linter.new {}).lintOn ctxIgnoreAll).passed = true ∧
    runRules [("missing-identity".toList, { severity := .sev .warning : RuleConfigC })]
        ["missing-identity".toList] false noIdentityCtx
        [("missing-identity".toList, missingIdentity)] =
      runRules [("missing-identity".toList, { severity := .sev .warning : RuleConfigC })]
        [] false noIdentityCtx
        ([("missing-identity".toList, missingIdentity)].filter
          (fun r => !(["missing-identity".toList] : List Str).contains r.1)) := by
  have hall := C8_ignore_directives_remove_rules.2.2 (Linter.new {}) ctxIgnoreAll (by decide)
  exact ⟨by decide, hall.1, hall.2.1, hall.2.2.1, hall.2.2.2,
    C8_ignore_directives_remove_rules.1 _ _ _ _⟩

/-- Counterexample for C8 as frozen: linting the same prompt with and without
the `missing-identity` ignore directive (present twice in the content). The
directive removes `missing-identity`'s finding, but `duplicate-instructions`
— a different, non-ignored rule — fires on the duplicated directive sentence
itself, so its findings are not unchanged relative to the directive-free
run. -/
theorem C8_counterexample_directive_changes_other_rule :
    (promptWithDirective.render []).map (fun r => parseIgnoredRules r.text) =
      .ok ["missing-identity".toList] ∧
    lintWithDirective.map (fun r => (findingsOfId r "missing-identity".toList).length) = .ok 0 ∧
    lintNoDirective.map (fun r => (findingsOfId r "missing-identity".toList).length) = .ok 1 ∧
    lintWithDirective.map (fun r => (findingsOfId r "duplicate-instructions".toList).length) =
      .ok 1 ∧
    lintNoDirective.map (fun r => (findingsOfId r "duplicate-instructions".toList).length) =
      .ok 0 := by
  exact ⟨by decide, by decide, by decide, by decide, by decide⟩

theorem runRules_suffix (cfgm : List (Str × RuleConfigC)) (ign : List Str) (ia : Bool)
    (ctx : LintContext) (rid : Str) (rule : LintRuleM) (tl : List (Str × LintRuleM)) :
    ∃ pre, (runRules cfgm ign ia ctx ((rid, rule) :: tl)).2 =
      pre ++ (runRules cfgm ign ia ctx tl).2 := by
  cases hmg : mapGet cfgm rid with
  | none => exact ⟨[], by simp [runRules, hmg]⟩
  | some cfg =>
    by_cases hoff : cfg.severity = .off
    · exact ⟨[], by simp [runRules, hmg, hoff]⟩
    · by_cases hig : (ia || ign.contains rid) = true
      · have h2 : ia = true ∨ rid ∈ ign := by simpa using hig
        exact ⟨[], by simp [runRules, hmg, hoff, h2]⟩
      · have h2 : ¬(ia = true ∨ rid ∈ ign) := by simpa using hig
        exact ⟨ruleContrib rule cfg ctx, by simp [runRules, hmg, hoff, h2]⟩

theorem runRules_override_mem (cfgm : List (Str × RuleConfigC)) (ign : List Str) (ia : Bool)
    (ctx : LintContext) :
    ∀ (rules : List (Str × LintRuleM)) (rid : Str) (r : LintRuleM) (cfg : RuleConfigC)
      (s : Severity) (ws : List Finding) (f : Finding),
      (rid, r) ∈ rules → mapGet cfgm rid = some cfg → cfg.severity = .sev s →
      ia = false → ign.contains rid = false →
      r.check (mergedCtx ctx cfg) = .ok ws → f ∈ ws →
      { f with severity := s } ∈ (runRules cfgm ign ia ctx rules).2 := by
  intro rules
  induction rules with
  | nil =>
    intro rid r cfg s ws f hmem
    cases hmem
  | cons hd tl ih =>
    rintro rid r cfg s ws f hmem hmg hsev hia hcont hcheck hf
    obtain ⟨rid', rule'⟩ := hd
    rcases List.mem_cons.mp hmem with heq | htl
    · injection heq with h1 h2
      subst h1
      subst h2
      have hoff : ¬(cfg.severity = .off) := by
        rw [hsev]
        intro hcase
        cases hcase
      have higB : ¬((ia || ign.contains rid) = true) := by
        subst hia
        simpa using hcont
      have hcontrib : ruleContrib r cfg ctx = ws.map (fun w => { w with severity := s }) := by
        unfold ruleContrib
        rw [hcheck, hsev]
      simp only [runRules, hmg, if_neg hoff, if_neg higB, hcontrib]
      exact List.mem_append_left _ (List.mem_map_of_mem _ hf)
    · obtain ⟨pre, hpre⟩ := runRules_suffix cfgm ign ia ctx rid' rule' tl
      rw [hpre]
      exact List.mem_append_right _ (ih rid r cfg s ws f htl hmg hsev hia hcont hcheck hf)

/-- C9. Every finding a rule returns is aggregated with the rule's
configured severity — the configured severity overwrites whatever severity
the returned finding carried; concretely, configuring `missing-identity` to
`error` makes a prompt without an identity section report that finding in
the errors bucket (not warnings) with `passed = false`. -/
theorem C9_configured_severity_overwrites :
    (∀ (cfgm : List (Str × RuleConfigC)) (ign : List Str) (ia : Bool) (ctx : LintContext)
        (rules : List (Str × LintRuleM)) (rid : Str) (r : LintRuleM) (cfg : RuleConfigC)
        (s : Severity) (ws : List Finding) (f : Finding),
      (rid, r) ∈ rules → mapGet cfgm rid = some cfg → cfg.severity = .sev s →
      ia = false → ign.contains rid = false →
      r.check (mergedCtx ctx cfg) = .ok ws → f ∈ ws →
      { f with severity := s } ∈ (runRules cfgm ign ia ctx rules).2) ∧
    lintMissingIdentityAsError.map (fun r =>
        (r.passed, r.errors.map (fun f => (f.id, f.severity)), r.warnings.map (fun f => f.id))) =
      .ok (false, [("missing-identity".toList, .error)], []) := by
  exact ⟨fun cfgm ign ia ctx => runRules_override_mem cfgm ign ia ctx, by decide⟩

/-- Witness for C9: the override clause applied at a concrete one-rule
registry with `missing-identity` configured to `error`. -/
theorem C9_witness :
    { missingIdentityFinding with severity := Severity.error } ∈
      (runRules [("missing-identity".toList, { severity := .sev .error : RuleConfigC })] []
        false noIdentityCtx [("missing-identity".toList, missingIdentity)]).2 := by
  exact C9_configured_severity_overwrites.1
    [("missing-identity".toList, { severity := .sev .error : RuleConfigC })] [] false
    noIdentityCtx [("missing-identity".toList, missingIdentity)] "missing-identity".toList
    missingIdentity { severity := .sev .error : RuleConfigC } .error [missingIdentityFinding]
    missingIdentityFinding (List.mem_cons_self _ _) (by decide) rfl rfl (by decide) (by decide)
    (List.mem_cons_self _ _)
